import Mathlib

/-!
# Model generation plugin: `plugin/modelgen/models.go`

A shallow embedding of `Plugin.MutateConfig`, the function that walks a GraphQL
schema, builds the descriptors of the Go models to generate, sorts them,
registers them in the configuration's type map and hands them to the template
renderer.

Conventions of the embedding.

* Go maps are association lists.  `for ... range m` visits the values in the
  order of the list; Go leaves that order unspecified, so every theorem is
  stated for an arbitrary list.  `m[k]` is `List.lookup`, with the zero value
  when the key is absent.
* Pointers to schema definitions are compared with `==` in the source.  The
  schema loader stores every definition once, under its name, and the root
  pointers `Query`, `Mutation`, `Subscription` are entries of the same table, so
  pointer equality is rendered as equality of the definitions; a nil root is
  `none`.
* Go strings are compared bytewise; on the UTF-8 encoded names of a schema this
  is the lexicographic order of the code points, `a.toList < b.toList`.
* Functions of other packages that the source calls and whose bodies are not
  part of the file (`templates.ToGo`, `code.PkgAndType`, `templates.Render`,
  `Binder.FindType`, `Binder.CopyModifiersFromAst`, `TypeMap.UserDefined`, the
  `Config.InjectBuiltins`, `TypeMap.Add`, the results of `cfg.Check`,
  `cfg.LoadSchema`, `cfg.NewBinder`) are parameters.
* The type map `cfg.Models` is mutable state: the model keeps its value when
  `MutateConfig` is called, its value from line 76 on (after
  `cfg.InjectBuiltins(schema)`), the calls of `Add` in order, and its value when
  the call ends.
* A run can end by returning nil, by returning an error, or by a runtime panic
  (nil dereference at `fd.Kind`, index out of range at `Model[0]`).
-/

namespace Modelgen

/-! ## Schema (package `ast` of gqlparser) -/

/-- The kinds of a schema definition, `ast.DefinitionKind`. -/
inductive DefinitionKind
  | Scalar
  | Object
  | Interface
  | Union
  | Enum
  | InputObject
  deriving DecidableEq, Repr

/-- The type of a field, `ast.Type`: a named type, or a list whose `Elem` is a
type; each level carries its `NonNull` flag. -/
inductive AstType
  | Named (NamedType : String) (NonNull : Bool)
  | ListOf (Elem : AstType) (NonNull : Bool)
  deriving DecidableEq, Repr

/-- The method `(*ast.Type).Name`: the name of the innermost named type. -/
def AstType.Name : AstType → String
  | .Named n _ => n
  | .ListOf e _ => e.Name

/-- The fields of `ast.FieldDefinition` that the plugin reads (`Typ` is the Go
field `Type`). -/
structure FieldDefinition where
  Description : String
  Name : String
  Typ : AstType
  deriving DecidableEq, Repr

/-- The fields of `ast.EnumValueDefinition` that the plugin reads. -/
structure EnumValueDefinition where
  Description : String
  Name : String
  deriving DecidableEq, Repr

/-- The fields of `ast.Definition` that the plugin reads. -/
structure Definition where
  Kind : DefinitionKind
  Description : String
  Name : String
  Fields : List FieldDefinition
  EnumValues : List EnumValueDefinition
  deriving DecidableEq, Repr

/-- The fields of `ast.Schema` that the plugin reads. -/
structure Schema where
  Query : Option Definition
  Mutation : Option Definition
  Subscription : Option Definition
  Types : List (String × Definition)
  Implements : List (String × List Definition)
  deriving Repr

/-- The method `(*ast.Schema).GetImplements`, which is `s.Implements[def.Name]`. -/
def Schema.GetImplements (s : Schema) (d : Definition) : List Definition :=
  (s.Implements.lookup d.Name).getD []

/-! ## Go types (package `go/types`) -/

/-- A Go package, `*types.Package`. -/
structure GoPackage where
  path : String
  name : String
  deriving DecidableEq, Repr

/-- The part of `types.Type` that the plugin builds or receives: a named type of
a package, a predeclared type, a pointer, a slice. -/
inductive GoType
  | Named (pkg : GoPackage) (name : String)
  | Basic (name : String)
  | Pointer (elem : GoType)
  | Slice (elem : GoType)
  deriving DecidableEq, Repr

/-! ## Descriptors (lines 15 to 52 of the source) -/

structure Interface where
  Description : String
  Name : String
  deriving DecidableEq, Repr

structure Field where
  Description : String
  Name : String
  Typ : GoType
  Tag : String
  deriving DecidableEq, Repr

structure Object where
  Description : String
  Name : String
  Fields : List Field
  Implements : List String
  deriving DecidableEq, Repr

structure EnumValue where
  Description : String
  Name : String
  Value : String
  deriving DecidableEq, Repr

structure Enum where
  Description : String
  Name : String
  Raw : String
  Values : List EnumValue
  deriving DecidableEq, Repr

structure ModelBuild where
  PackageName : String
  Interfaces : List Interface
  Models : List Object
  Enums : List Enum
  deriving DecidableEq, Repr

/-! ## Configuration (package `codegen/config`) and collaborators -/

/-- A Go `error` value. -/
structure GoError where
  msg : String
  deriving DecidableEq, Repr

/-- The struct `config.TypeMapField`. -/
structure TypeMapField where
  Resolver : Bool
  FieldName : String
  deriving DecidableEq, Repr

/-- The struct `config.TypeMapEntry`. -/
structure TypeMapEntry where
  Model : List String
  Fields : List (String × TypeMapField)
  deriving DecidableEq, Repr

/-- The map type `config.TypeMap`. -/
abbrev TypeMap := List (String × TypeMapEntry)

/-- The map index `tm[name]`: the zero entry when the key is absent. -/
def TypeMap.get (tm : TypeMap) (name : String) : TypeMapEntry :=
  (tm.lookup name).getD { Model := [], Fields := [] }

/-- The map index `entry.Fields[name]`: the zero field when the key is absent. -/
def TypeMapEntry.field (e : TypeMapEntry) (name : String) : TypeMapField :=
  (e.Fields.lookup name).getD { Resolver := false, FieldName := "" }

/-- The binder returned by `cfg.NewBinder`: its two methods that the plugin
calls. -/
structure Binder where
  FindType : String → String → Except GoError GoType
  CopyModifiersFromAst : AstType → Bool → GoType → GoType

/-- The struct `config.PackageConfig` of `cfg.Model`, with the values of its
methods `ImportPath()` and `Pkg()`. -/
structure PackageConfig where
  Filename : String
  Package : String
  ImportPath : String
  Pkg : GoPackage
  deriving Repr

/-- The configuration as `MutateConfig` sees it: the results of `cfg.Check()`,
`cfg.LoadSchema()` and `cfg.NewBinder(schema)`, the type map `cfg.Models` as it
stands when `MutateConfig` is called (`ModelsAtCall`), the method
`cfg.InjectBuiltins` of line 76 as the function from the type map it finds and
the schema to the type map it leaves, the predicate `cfg.Models.UserDefined` as
it stands when the walk starts (after `cfg.InjectBuiltins`), and `cfg.Model`. -/
structure Config where
  Check : Option GoError
  LoadSchema : Except GoError Schema
  NewBinder : Schema → Except GoError Binder
  ModelsAtCall : TypeMap
  InjectBuiltins : TypeMap → Schema → TypeMap
  UserDefined : String → Bool
  Model : PackageConfig

/-- The type map `cfg.Models` as it stands from line 76 on, and so during the
walk: what `cfg.InjectBuiltins(schema)` leaves of the type map of the call.
(When the schema does not load, line 76 is not reached and the type map is the
one of the call.) -/
def Config.Models (cfg : Config) : TypeMap :=
  match cfg.LoadSchema with
  | .ok schema => cfg.InjectBuiltins cfg.ModelsAtCall schema
  | .error _ => cfg.ModelsAtCall

/-- The struct `templates.Options` as the plugin fills it. -/
structure Options where
  PackageName : String
  Filename : String
  Data : ModelBuild
  GeneratedHeader : Bool
  deriving DecidableEq, Repr

/-- The functions of the packages `templates`, `code` and `config` that the
plugin calls: `Add` is the method `TypeMap.Add`, as the function from the type
map it finds, the name and the Go type to the type map it leaves. -/
structure Env where
  ToGo : String → String
  PkgAndType : String → String × String
  Render : Options → Option GoError
  Add : TypeMap → String → String → TypeMap

/-! ## Outcomes -/

/-- The runtime panics the walk can raise. -/
inductive Panic
  | nilDereference
  | indexOutOfRange
  deriving DecidableEq, Repr

/-- What stops the walk: an error that is returned, or a panic. -/
inductive Fault
  | err (e : GoError)
  | panic (p : Panic)
  deriving DecidableEq, Repr

/-- How a call of `MutateConfig` ends. -/
inductive Ret
  | ok
  | err (e : GoError)
  | panic (p : Panic)
  deriving DecidableEq, Repr

/-- A run of `MutateConfig`: how it ends, the `ModelBuild` it holds once the
lists are sorted (if it gets there), the calls of `cfg.Models.Add` in order, the
calls of `templates.Render` in order, and the type map `cfg.Models` as the call
leaves it. -/
structure Run where
  ret : Ret
  build : Option ModelBuild
  adds : List (String × String)
  renders : List Options
  registry : TypeMap
  deriving DecidableEq, Repr

/-! ## The walk (lines 87 to 163) -/

/-- Lines 114 to 129: the base Go type of a field. -/
def baseType (env : Env) (cfg : Config) (binder : Binder) (field : FieldDefinition) :
    Except Fault GoType :=
  if cfg.UserDefined field.Typ.Name then
    match (cfg.Models.get field.Typ.Name).Model with
    | [] => .error (.panic .indexOutOfRange)
    | m :: _ =>
      match binder.FindType (env.PkgAndType m).1 (env.PkgAndType m).2 with
      | .error err => .error (.err err)
      | .ok typ => .ok typ
  else
    .ok (GoType.Named cfg.Model.Pkg (env.ToGo field.Typ.Name))

/-- Lines 131 to 134: the name of a field before the naming policy, the
configured override when it is not empty. -/
def fieldName (cfg : Config) (schemaType : Definition) (field : FieldDefinition) : String :=
  if ((cfg.Models.get schemaType.Name).field field.Name).FieldName ≠ "" then
    ((cfg.Models.get schemaType.Name).field field.Name).FieldName
  else
    field.Name

/-- Lines 114 to 142: the descriptor of one field. -/
def buildField (env : Env) (cfg : Config) (schema : Schema) (binder : Binder)
    (schemaType : Definition) (field : FieldDefinition) : Except Fault Field :=
  match baseType env cfg binder field with
  | .error e => .error e
  | .ok typ =>
    match schema.Types.lookup field.Typ.Name with
    | none => .error (.panic .nilDereference)
    | some fd =>
      .ok { Name := env.ToGo (fieldName cfg schemaType field)
            Typ := binder.CopyModifiersFromAst field.Typ (decide (fd.Kind ≠ .Interface)) typ
            Description := field.Description
            Tag := "json:\"" ++ field.Name ++ "\"" }

/-- Lines 113 to 143: the loop over the fields, appending to `it.Fields`. -/
def walkFields (env : Env) (cfg : Config) (schema : Schema) (binder : Binder)
    (schemaType : Definition) (it : Object) : List FieldDefinition → Except Fault Object
  | [] => .ok it
  | field :: rest =>
    match buildField env cfg schema binder schemaType field with
    | .error e => .error e
    | .ok fd =>
      walkFields env cfg schema binder schemaType { it with Fields := it.Fields ++ [fd] } rest

/-- Lines 109 to 111: the loop over the implemented types, appending to
`it.Implements`. -/
def walkImplements (env : Env) (it : Object) (impls : List Definition) : Object :=
  impls.foldl (fun o implementor => { o with Implements := o.Implements ++ [env.ToGo implementor.Name] }) it

/-- Lines 153 to 159: the loop over the enum values, appending to `it.Values`. -/
def walkEnumValues (env : Env) (it : Enum) (vs : List EnumValueDefinition) : Enum :=
  vs.foldl (fun e v => { e with Values := e.Values ++
    [{ Name := env.ToGo v.Name, Value := v.Name, Description := v.Description }] }) it

/-- Line 101: the definition is one of the three root operation types. -/
def isRoot (schema : Schema) (schemaType : Definition) : Bool :=
  decide (some schemaType = schema.Query) || decide (some schemaType = schema.Mutation)
    || decide (some schemaType = schema.Subscription)

/-- Lines 94 to 97: the descriptor of an interface or union type. -/
def interfaceOf (env : Env) (schemaType : Definition) : Interface :=
  { Description := schemaType.Description, Name := env.ToGo schemaType.Name }

/-- Lines 104 to 143: the descriptor of an object or input object type, built
by the two loops from the literal of lines 104 to 107. -/
def objectOf (env : Env) (cfg : Config) (schema : Schema) (binder : Binder)
    (schemaType : Definition) : Except Fault Object :=
  walkFields env cfg schema binder schemaType
    (walkImplements env
      { Description := schemaType.Description, Name := env.ToGo schemaType.Name,
        Fields := [], Implements := [] }
      (schema.GetImplements schemaType))
    schemaType.Fields

/-- Lines 147 to 159: the descriptor of an enum type, built by the loop from
the literal of lines 147 to 151. -/
def enumOf (env : Env) (schemaType : Definition) : Enum :=
  walkEnumValues env
    { Name := env.ToGo schemaType.Name, Raw := schemaType.Name,
      Description := schemaType.Description, Values := [] }
    schemaType.EnumValues

/-- Lines 88 to 162: the body of the loop over the schema types. -/
def visitType (env : Env) (cfg : Config) (schema : Schema) (binder : Binder)
    (b : ModelBuild) (schemaType : Definition) : Except Fault ModelBuild :=
  if cfg.UserDefined schemaType.Name then .ok b
  else
    match schemaType.Kind with
    | .Interface | .Union =>
      .ok { b with Interfaces := b.Interfaces ++ [interfaceOf env schemaType] }
    | .Object | .InputObject =>
      if isRoot schema schemaType then .ok b
      else
        match objectOf env cfg schema binder schemaType with
        | .error e => .error e
        | .ok it => .ok { b with Models := b.Models ++ [it] }
    | .Enum => .ok { b with Enums := b.Enums ++ [enumOf env schemaType] }
    | .Scalar => .ok b

/-- Lines 87 to 163: the loop over the schema types. -/
def walkTypes (env : Env) (cfg : Config) (schema : Schema) (binder : Binder) :
    ModelBuild → List Definition → Except Fault ModelBuild
  | b, [] => .ok b
  | b, schemaType :: rest =>
    match visitType env cfg schema binder b schemaType with
    | .error e => .error e
    | .ok b1 => walkTypes env cfg schema binder b1 rest

/-- Lines 83 to 163: the walk over `schema.Types`, from the empty build. -/
def walk (env : Env) (cfg : Config) (schema : Schema) (binder : Binder) :
    Except Fault ModelBuild :=
  walkTypes env cfg schema binder
    { PackageName := cfg.Model.Package, Interfaces := [], Models := [], Enums := [] }
    (schema.Types.map Prod.snd)

/-! ## Sorting (lines 165 to 167) -/

/-- The comparison of two Go strings with `<`. -/
def strLess (a b : String) : Bool := decide (a.toList < b.toList)

/-- One insertion step: `x` goes before the first element that is not less
than it. -/
def insertSlice {α : Type} (less : α → α → Bool) (x : α) : List α → List α
  | [] => [x]
  | y :: ys => if less y x then y :: insertSlice less x ys else x :: y :: ys

/-- The library function `sort.Slice(xs, less)`.  Go promises a permutation of
the slice in which no element is less than an earlier one, and no more (the sort
is not stable); this model is an insertion sort, and the theorems use only
those two facts. -/
def sortSlice {α : Type} (less : α → α → Bool) : List α → List α
  | [] => []
  | x :: xs => insertSlice less x (sortSlice less xs)

/-- Lines 165 to 167: the three lists sorted by `Name`. -/
def sortBuild (b : ModelBuild) : ModelBuild :=
  { b with
    Enums := sortSlice (fun x y => strLess x.Name y.Name) b.Enums
    Models := sortSlice (fun x y => strLess x.Name y.Name) b.Models
    Interfaces := sortSlice (fun x y => strLess x.Name y.Name) b.Interfaces }

/-! ## Registration (lines 169 to 177) and hand-off (lines 179 to 188) -/

/-- Lines 169 to 177: the calls `cfg.Models.Add(key, goType)` in the order in
which they are made. -/
def registrations (cfg : Config) (b : ModelBuild) : List (String × String) :=
  b.Enums.map (fun it => (it.Raw, cfg.Model.ImportPath ++ "." ++ it.Name))
    ++ b.Models.map (fun it => (it.Name, cfg.Model.ImportPath ++ "." ++ it.Name))
    ++ b.Interfaces.map (fun it => (it.Name, cfg.Model.ImportPath ++ "." ++ it.Name))

/-- Lines 183 to 188: the options handed to `templates.Render`. -/
def renderOptions (cfg : Config) (b : ModelBuild) : Options :=
  { PackageName := cfg.Model.Package, Filename := cfg.Model.Filename, Data := b,
    GeneratedHeader := true }

/-- Lines 169 to 177: the type map after the calls of `Add`, made in order on
the type map of the walk. -/
def registered (env : Env) (cfg : Config) (b : ModelBuild) : TypeMap :=
  (registrations cfg b).foldl (fun tm kv => env.Add tm kv.1 kv.2) cfg.Models

/-- Lines 165 to 188: what follows a walk that built `b0`. -/
def finish (env : Env) (cfg : Config) (b0 : ModelBuild) : Run :=
  if (sortBuild b0).Models.length = 0 ∧ (sortBuild b0).Enums.length = 0 then
    { ret := .ok, build := some (sortBuild b0),
      adds := registrations cfg (sortBuild b0), renders := [],
      registry := registered env cfg (sortBuild b0) }
  else
    { ret := match env.Render (renderOptions cfg (sortBuild b0)) with
        | none => .ok
        | some err => .err err
      build := some (sortBuild b0)
      adds := registrations cfg (sortBuild b0)
      renders := [renderOptions cfg (sortBuild b0)]
      registry := registered env cfg (sortBuild b0) }

/-- A run that stops before the lists are sorted, leaving the type map
`registry`. -/
def stopped (r : Ret) (registry : TypeMap) : Run :=
  { ret := r, build := none, adds := [], renders := [], registry := registry }

/-- The method `(*Plugin).MutateConfig`, lines 66 to 189.  Up to line 75 the
type map is the one of the call; line 76, `cfg.InjectBuiltins(schema)`, replaces
it by `cfg.InjectBuiltins cfg.ModelsAtCall schema`, which is `cfg.Models`, the
type map that the walk reads. -/
def MutateConfig (env : Env) (cfg : Config) : Run :=
  match cfg.Check with
  | some err => stopped (.err err) cfg.ModelsAtCall
  | none =>
    match cfg.LoadSchema with
    | .error err => stopped (.err err) cfg.ModelsAtCall
    | .ok schema =>
      match cfg.NewBinder schema with
      | .error err => stopped (.err err) (cfg.InjectBuiltins cfg.ModelsAtCall schema)
      | .ok binder =>
        match walk env cfg schema binder with
        | .error (.err err) => stopped (.err err) (cfg.InjectBuiltins cfg.ModelsAtCall schema)
        | .error (.panic p) => stopped (.panic p) (cfg.InjectBuiltins cfg.ModelsAtCall schema)
        | .ok b0 => finish env cfg b0

/-! ## Which types get a descriptor -/

/-- The type gets an `Interface` descriptor: lines 88 and 93. -/
def genInterface (cfg : Config) (t : Definition) : Bool :=
  !cfg.UserDefined t.Name && (decide (t.Kind = .Interface) || decide (t.Kind = .Union))

/-- The type gets an `Object` descriptor: lines 88, 100 and 101. -/
def genObject (cfg : Config) (schema : Schema) (t : Definition) : Bool :=
  !cfg.UserDefined t.Name && (decide (t.Kind = .Object) || decide (t.Kind = .InputObject))
    && !isRoot schema t

/-- The type gets an `Enum` descriptor: lines 88 and 146. -/
def genEnum (cfg : Config) (t : Definition) : Bool :=
  !cfg.UserDefined t.Name && decide (t.Kind = .Enum)

/-! ## Sample collaborators and inputs -/

/-- Modelled from the spec: the naming policy `templates.ToGo` (package
`codegen/templates`, not among the sources) maps a schema identifier to an
exported Go identifier.  This sample policy upper-cases the first letter, which
is what an exported identifier requires. -/
def sampleToGo (s : String) : String := s.capitalize

/-- Modelled from the spec: `code.PkgAndType` (package `internal/code`, not
among the sources) splits a declared location into the package and the local
name, at the last dot. -/
def samplePkgAndType (s : String) : String × String :=
  (String.mk ((s.toList.reverse.dropWhile (fun c => c ≠ '.')).tail.reverse),
   String.mk ((s.toList.reverse.takeWhile (fun c => c ≠ '.')).reverse))

/-- Modelled from the spec: `Binder.CopyModifiersFromAst` (package
`codegen/config`, not among the sources) wraps the base type along the modifier
chain of the schema type: a list level becomes a slice, and the innermost named
level becomes a pointer when it is nullable and the pointer flag is set. -/
def CopyModifiersFromAst : AstType → Bool → GoType → GoType
  | .ListOf e _, usePtr, base => .Slice (CopyModifiersFromAst e usePtr base)
  | .Named _ nonNull, usePtr, base => if !nonNull && usePtr then .Pointer base else base

/-- A binder that knows the listed locations and no other. -/
def sampleBinder (known : List ((String × String) × GoType)) : Binder :=
  { FindType := fun pkg typeName =>
      match known.lookup (pkg, typeName) with
      | some t => .ok t
      | none => .error { msg := "unable to find type " ++ pkg ++ "." ++ typeName }
    CopyModifiersFromAst := CopyModifiersFromAst }

/-- Modelled from the spec: `TypeMap.Add` (package `codegen/config`, not among
the sources) is the mutator of the override registry; it appends the Go type to
the locations of the name, with a new entry when the name has none. -/
def sampleAdd (tm : TypeMap) (name goType : String) : TypeMap :=
  match tm.lookup name with
  | some _ =>
    tm.map (fun kv =>
      if kv.1 = name then (kv.1, { kv.2 with Model := kv.2.Model ++ [goType] }) else kv)
  | none => tm ++ [(name, { Model := [goType], Fields := [] })]

/-- The built-in scalars and their Go types in the sample. -/
def sampleBuiltins : TypeMap :=
  [("String", { Model := ["github.com/99designs/gqlgen/graphql.String"], Fields := [] }),
   ("Int", { Model := ["github.com/99designs/gqlgen/graphql.Int"], Fields := [] }),
   ("Float", { Model := ["github.com/99designs/gqlgen/graphql.Float"], Fields := [] }),
   ("Boolean", { Model := ["github.com/99designs/gqlgen/graphql.Boolean"], Fields := [] }),
   ("ID", { Model := ["github.com/99designs/gqlgen/graphql.ID"], Fields := [] })]

/-- Modelled from the spec: `Config.InjectBuiltins` (package `codegen/config`,
not among the sources) augments the registry with the built-in types; every
built-in name that has no entry yet gets its entry, and the entries that the
caller wrote are kept. -/
def sampleInjectBuiltins (tm : TypeMap) (_schema : Schema) : TypeMap :=
  tm ++ sampleBuiltins.filter (fun kv => (tm.lookup kv.1).isNone)

/-- Modelled from the spec: `TypeMap.UserDefined` (package `codegen/config`, not
among the sources) is the predicate that a type name is user-defined; a name is
user-defined when the registry holds a location for it. -/
def sampleUserDefined (tm : TypeMap) (name : String) : Bool :=
  !(tm.get name).Model.isEmpty

def sampleEnv : Env :=
  { ToGo := sampleToGo, PkgAndType := samplePkgAndType, Render := fun _ => none,
    Add := sampleAdd }

/-- The root type `Query` with one field, a list of `name`. -/
def defQueryOver (name : String) : Definition :=
  { Kind := .Object, Description := "", Name := "Query", EnumValues := []
    Fields := [{ Description := "", Name := "items", Typ := .ListOf (.Named name true) true }] }

def sampleModel : PackageConfig :=
  { Filename := "models_gen.go", Package := "models", ImportPath := "example.com/app/models",
    Pkg := { path := "example.com/app/models", name := "models" } }

def sampleKnown : List ((String × String) × GoType) :=
  [(("example.com/app", "User"), .Named { path := "example.com/app", name := "app" } "User"),
   (("github.com/99designs/gqlgen/graphql", "String"), .Basic "string")]

def defString : Definition :=
  { Kind := .Scalar, Description := "", Name := "String", Fields := [], EnumValues := [] }

def defUser : Definition :=
  { Kind := .Object, Description := "", Name := "User", EnumValues := []
    Fields := [{ Description := "", Name := "name", Typ := .Named "String" true }] }

def defNode : Definition :=
  { Kind := .Interface, Description := "anything with an id", Name := "Node", EnumValues := []
    Fields := [{ Description := "", Name := "id", Typ := .Named "String" true }] }

def defSearchResult : Definition :=
  { Kind := .Union, Description := "", Name := "SearchResult", Fields := [], EnumValues := [] }

def defStatus : Definition :=
  { Kind := .Enum, Description := "state of a todo", Name := "Status", Fields := []
    EnumValues := [{ Description := "", Name := "ACTIVE" },
                   { Description := "gone", Name := "not_found" }] }

def defTodo : Definition :=
  { Kind := .Object, Description := "a todo", Name := "Todo", EnumValues := []
    Fields := [{ Description := "", Name := "text", Typ := .Named "String" true },
               { Description := "creation time", Name := "createdAt", Typ := .Named "String" false },
               { Description := "", Name := "owner", Typ := .Named "User" true },
               { Description := "", Name := "tags", Typ := .ListOf (.Named "String" true) false }] }

def defAccount : Definition :=
  { Kind := .InputObject, Description := "", Name := "Account", EnumValues := []
    Fields := [{ Description := "", Name := "status", Typ := .Named "Status" true }] }

def defQuery : Definition :=
  { Kind := .Object, Description := "", Name := "Query", EnumValues := []
    Fields := [{ Description := "", Name := "todos", Typ := .ListOf (.Named "Todo" true) true }] }

def sampleSchema : Schema :=
  { Query := some defQuery, Mutation := none, Subscription := none
    Types := [("Status", defStatus), ("Todo", defTodo), ("SearchResult", defSearchResult),
              ("Query", defQuery), ("User", defUser), ("Node", defNode), ("Account", defAccount),
              ("String", defString)]
    Implements := [("Todo", [defNode, defSearchResult])] }

/-- The type map that the caller wrote in the sample: a location for `User`
and a field name for `Todo.createdAt`. -/
def sampleModels : TypeMap :=
  [("User", { Model := ["example.com/app.User"], Fields := [] }),
   ("Todo", { Model := [], Fields := [("createdAt", { Resolver := false, FieldName := "made" })] })]

def sampleConfig : Config :=
  { Check := none
    LoadSchema := .ok sampleSchema
    NewBinder := fun _ => .ok (sampleBinder sampleKnown)
    ModelsAtCall := sampleModels
    InjectBuiltins := sampleInjectBuiltins
    UserDefined := sampleUserDefined (sampleInjectBuiltins sampleModels sampleSchema)
    Model := sampleModel }


/-- The build that the sample run holds after sorting. -/
def sampleBuild : ModelBuild :=
  { PackageName := "models"
    Interfaces := [{ Description := "anything with an id", Name := "Node" },
                   { Description := "", Name := "SearchResult" }]
    Models :=
      [{ Description := "", Name := "Account", Implements := []
         Fields := [{ Description := "", Name := "Status", Tag := "json:\"status\""
                      Typ := .Named { path := "example.com/app/models", name := "models" } "Status" }] },
       { Description := "a todo", Name := "Todo", Implements := ["Node", "SearchResult"]
         Fields := [{ Description := "", Name := "Text", Tag := "json:\"text\""
                      Typ := .Basic "string" },
                    { Description := "creation time", Name := "Made", Tag := "json:\"createdAt\""
                      Typ := .Pointer (.Basic "string") },
                    { Description := "", Name := "Owner", Tag := "json:\"owner\""
                      Typ := .Named { path := "example.com/app", name := "app" } "User" },
                    { Description := "", Name := "Tags", Tag := "json:\"tags\""
                      Typ := .Slice (.Basic "string") }] }]
    Enums := [{ Description := "state of a todo", Name := "Status", Raw := "Status"
                Values := [{ Description := "", Name := sampleToGo "ACTIVE", Value := "ACTIVE" },
                           { Description := "gone", Name := sampleToGo "not_found",
                             Value := "not_found" }] }] }

/-- An object type whose name is written in lower case. -/
def defLowerTodo : Definition :=
  { Kind := .Object, Description := "", Name := "todo", EnumValues := []
    Fields := [{ Description := "", Name := "text", Typ := .Named "String" true }] }

/-- A schema with the object type `todo` and nothing else to generate. -/
def lowerSchema : Schema :=
  { Query := some (defQueryOver "todo"), Mutation := none, Subscription := none
    Types := [("todo", defLowerTodo), ("Query", defQueryOver "todo"), ("String", defString)]
    Implements := [] }

def lowerConfig : Config :=
  { Check := none
    LoadSchema := .ok lowerSchema
    NewBinder := fun _ => .ok (sampleBinder sampleKnown)
    ModelsAtCall := []
    InjectBuiltins := sampleInjectBuiltins
    UserDefined := sampleUserDefined (sampleInjectBuiltins [] lowerSchema)
    Model := sampleModel }

/-- A schema with the two object types `Todo` and `todo`. -/
def twoTodoSchema : Schema :=
  { Query := some defQuery, Mutation := none, Subscription := none
    Types := [("Todo", defTodo), ("todo", defLowerTodo), ("Query", defQuery),
              ("String", defString), ("User", defUser)]
    Implements := [] }

/-- A configuration in which `Todo` is user-defined, bound to `example.com/app.Todo`. -/
def twoTodoConfig : Config :=
  { Check := none
    LoadSchema := .ok twoTodoSchema
    NewBinder := fun _ => .ok (sampleBinder sampleKnown)
    ModelsAtCall := [("User", { Model := ["example.com/app.User"], Fields := [] }),
                     ("Todo", { Model := ["example.com/app.Todo"], Fields := [] })]
    InjectBuiltins := sampleInjectBuiltins
    UserDefined := sampleUserDefined (sampleInjectBuiltins
      [("User", { Model := ["example.com/app.User"], Fields := [] }),
       ("Todo", { Model := ["example.com/app.Todo"], Fields := [] })] twoTodoSchema)
    Model := sampleModel }

/-- An object type with a nullable field of a union type and a nullable field
of an interface type. -/
def defHit : Definition :=
  { Kind := .Object, Description := "", Name := "Hit", EnumValues := []
    Fields := [{ Description := "", Name := "result", Typ := .Named "SearchResult" false },
               { Description := "", Name := "node", Typ := .Named "Node" false }] }

def unionSchema : Schema :=
  { Query := some (defQueryOver "Hit"), Mutation := none, Subscription := none
    Types := [("Hit", defHit), ("SearchResult", defSearchResult), ("Node", defNode),
              ("Query", defQueryOver "Hit"), ("String", defString)]
    Implements := [] }

/-- The configuration of the union example, for a binder whose
`CopyModifiersFromAst` is `copy`. -/
def unionConfig (copy : AstType → Bool → GoType → GoType) : Config :=
  { Check := none
    LoadSchema := .ok unionSchema
    NewBinder := fun _ => .ok { sampleBinder sampleKnown with CopyModifiersFromAst := copy }
    ModelsAtCall := []
    InjectBuiltins := sampleInjectBuiltins
    UserDefined := sampleUserDefined (sampleInjectBuiltins [] unionSchema)
    Model := sampleModel }

/-- An object type named `query`, next to the root type `Query`. -/
def defLowerQuery : Definition :=
  { Kind := .Object, Description := "a saved search", Name := "query", EnumValues := []
    Fields := [{ Description := "", Name := "text", Typ := .Named "String" true }] }

def rootSchema : Schema :=
  { Query := some defQuery, Mutation := none, Subscription := none
    Types := [("Query", defQuery), ("query", defLowerQuery), ("Todo", defTodo),
              ("String", defString), ("User", defUser)]
    Implements := [] }

def rootConfig : Config :=
  { Check := none
    LoadSchema := .ok rootSchema
    NewBinder := fun _ => .ok (sampleBinder sampleKnown)
    ModelsAtCall := [("User", { Model := ["example.com/app.User"], Fields := [] })]
    InjectBuiltins := sampleInjectBuiltins
    UserDefined := sampleUserDefined (sampleInjectBuiltins
      [("User", { Model := ["example.com/app.User"], Fields := [] })] rootSchema)
    Model := sampleModel }

/-- The build that the run on `rootConfig` holds after sorting. -/
def rootBuild : ModelBuild :=
  { PackageName := "models"
    Interfaces := []
    Enums := []
    Models :=
      [{ Description := "a saved search", Name := "Query", Implements := []
         Fields := [{ Description := "", Name := "Text", Tag := "json:\"text\""
                      Typ := .Basic "string" }] },
       { Description := "a todo", Name := "Todo", Implements := []
         Fields := [{ Description := "", Name := "Text", Tag := "json:\"text\""
                      Typ := .Basic "string" },
                    { Description := "creation time", Name := "CreatedAt"
                      Tag := "json:\"createdAt\"", Typ := .Pointer (.Basic "string") },
                    { Description := "", Name := "Owner", Tag := "json:\"owner\""
                      Typ := .Named { path := "example.com/app", name := "app" } "User" },
                    { Description := "", Name := "Tags", Tag := "json:\"tags\""
                      Typ := .Slice (.Basic "string") }] }] }

/-- The locations that the failing binder knows: the one of `User` is missing. -/
def failKnown : List ((String × String) × GoType) :=
  [(("github.com/99designs/gqlgen/graphql", "String"), .Basic "string")]

/-- The sample configuration with a binder that cannot find `example.com/app.User`. -/
def failConfig : Config :=
  { sampleConfig with NewBinder := fun _ => .ok (sampleBinder failKnown) }

/-- A schema whose only generated type is the interface `Node`. -/
def interfaceOnlySchema : Schema :=
  { Query := some (defQueryOver "Node"), Mutation := none, Subscription := none
    Types := [("Node", defNode), ("Query", defQueryOver "Node"), ("String", defString)]
    Implements := [] }

def interfaceOnlyConfig : Config :=
  { Check := none
    LoadSchema := .ok interfaceOnlySchema
    NewBinder := fun _ => .ok (sampleBinder sampleKnown)
    ModelsAtCall := []
    InjectBuiltins := sampleInjectBuiltins
    UserDefined := sampleUserDefined (sampleInjectBuiltins [] interfaceOnlySchema)
    Model := sampleModel }

/-- The sample configuration with the interface `Node` user-defined as well. -/
def nodeUserConfig : Config :=
  { sampleConfig with
    ModelsAtCall := ("Node", { Model := ["example.com/app.Node"], Fields := [] }) :: sampleModels
    UserDefined := sampleUserDefined (sampleInjectBuiltins
      (("Node", { Model := ["example.com/app.Node"], Fields := [] }) :: sampleModels)
      sampleSchema) }

/-- An object type with a nullable list of non-null strings and a non-null list
of nullable strings. -/
def defTagged : Definition :=
  { Kind := .Object, Description := "", Name := "Tagged", EnumValues := []
    Fields := [{ Description := "", Name := "tags", Typ := .ListOf (.Named "String" true) false },
               { Description := "", Name := "notes", Typ := .ListOf (.Named "String" false) true }] }

def taggedSchema : Schema :=
  { Query := some (defQueryOver "Tagged"), Mutation := none, Subscription := none
    Types := [("Tagged", defTagged), ("Query", defQueryOver "Tagged"), ("String", defString)]
    Implements := [] }

def taggedConfig : Config :=
  { Check := none
    LoadSchema := .ok taggedSchema
    NewBinder := fun _ => .ok (sampleBinder sampleKnown)
    ModelsAtCall := []
    InjectBuiltins := sampleInjectBuiltins
    UserDefined := sampleUserDefined (sampleInjectBuiltins [] taggedSchema)
    Model := sampleModel }

/-- An enum type named `query`. -/
def defEnumQuery : Definition :=
  { Kind := .Enum, Description := "", Name := "query", Fields := []
    EnumValues := [{ Description := "", Name := "RECENT" }] }

/-- The sample schema with the enum type `query` added. -/
def enumQuerySchema : Schema :=
  { sampleSchema with Types := ("query", defEnumQuery) :: sampleSchema.Types }

def enumQueryConfig : Config :=
  { sampleConfig with LoadSchema := .ok enumQuerySchema }

/-! ## Facts about the sort -/

theorem strLess_iff (a b : String) : strLess a b = true ↔ a < b := by
  unfold strLess
  rw [decide_eq_true_iff]
  exact String.lt_iff_toList_lt.symm

theorem perm_insertSlice {α : Type} (less : α → α → Bool) (x : α) (l : List α) :
    (insertSlice less x l).Perm (x :: l) := by
  induction l with
  | nil => exact List.Perm.refl _
  | cons y ys ih =>
    unfold insertSlice
    split
    · exact ((List.Perm.cons y ih).trans (List.Perm.swap x y ys))
    · exact List.Perm.refl _

theorem perm_sortSlice {α : Type} (less : α → α → Bool) (l : List α) :
    (sortSlice less l).Perm l := by
  induction l with
  | nil => exact List.Perm.refl _
  | cons x xs ih =>
    unfold sortSlice
    exact (perm_insertSlice less x _).trans (List.Perm.cons x ih)

theorem mem_sortSlice {α : Type} (less : α → α → Bool) (l : List α) (a : α) :
    a ∈ sortSlice less l ↔ a ∈ l :=
  (perm_sortSlice less l).mem_iff

theorem pairwise_insertSlice {α : Type} (key : α → String) (x : α) (l : List α)
    (h : l.Pairwise (fun a b => ¬ key b < key a)) :
    (insertSlice (fun a b => strLess (key a) (key b)) x l).Pairwise
      (fun a b => ¬ key b < key a) := by
  induction l with
  | nil => simp [insertSlice]
  | cons y ys ih =>
    rw [List.pairwise_cons] at h
    unfold insertSlice
    split
    · rename_i hlt
      rw [strLess_iff] at hlt
      rw [List.pairwise_cons]
      refine ⟨?_, ih h.2⟩
      intro a ha
      rcases List.mem_cons.mp ((perm_insertSlice _ x ys).mem_iff.mp ha) with hax | hay
      · rw [hax]
        exact not_lt.mpr hlt.le
      · exact h.1 a hay
    · rename_i hnlt
      have hxy : ¬ key y < key x := by
        intro hc
        exact hnlt ((strLess_iff _ _).mpr hc)
      rw [List.pairwise_cons]
      refine ⟨?_, List.pairwise_cons.mpr h⟩
      intro a ha
      rcases List.mem_cons.mp ha with rfl | hay
      · exact hxy
      · exact not_lt.mpr ((not_lt.mp hxy).trans (not_lt.mp (h.1 a hay)))

theorem pairwise_sortSlice {α : Type} (key : α → String) (l : List α) :
    (sortSlice (fun a b => strLess (key a) (key b)) l).Pairwise
      (fun a b => ¬ key b < key a) := by
  induction l with
  | nil => simp [sortSlice]
  | cons x xs ih =>
    unfold sortSlice
    exact pairwise_insertSlice key x _ ih

/-! ## Facts about the loops -/

theorem walkImplements_eq (env : Env) (impls : List Definition) (it : Object) :
    walkImplements env it impls =
      { it with Implements := it.Implements ++ impls.map (fun d => env.ToGo d.Name) } := by
  induction impls generalizing it with
  | nil => simp [walkImplements]
  | cons d ds ih =>
    have h := ih { it with Implements := it.Implements ++ [env.ToGo d.Name] }
    simp only [walkImplements, List.foldl_cons] at h ⊢
    rw [h]
    simp

theorem walkEnumValues_eq (env : Env) (vs : List EnumValueDefinition) (it : Enum) :
    walkEnumValues env it vs =
      { it with Values := it.Values ++ vs.map (fun v =>
          { Name := env.ToGo v.Name, Value := v.Name, Description := v.Description }) } := by
  induction vs generalizing it with
  | nil => simp [walkEnumValues]
  | cons v vs ih =>
    have h := ih { it with Values := it.Values ++
      [{ Name := env.ToGo v.Name, Value := v.Name, Description := v.Description }] }
    simp only [walkEnumValues, List.foldl_cons] at h ⊢
    rw [h]
    simp

theorem enumOf_eq (env : Env) (t : Definition) :
    enumOf env t =
      { Name := env.ToGo t.Name, Raw := t.Name, Description := t.Description,
        Values := t.EnumValues.map (fun v =>
          { Name := env.ToGo v.Name, Value := v.Name, Description := v.Description }) } := by
  simp [enumOf, walkEnumValues_eq]

theorem walkFields_ok_iff (env : Env) (cfg : Config) (schema : Schema) (binder : Binder)
    (st : Definition) (fs : List FieldDefinition) (it it1 : Object) :
    walkFields env cfg schema binder st it fs = .ok it1 ↔
      ∃ fds, List.Forall₂ (fun f fd => buildField env cfg schema binder st f = .ok fd) fs fds
        ∧ it1 = { it with Fields := it.Fields ++ fds } := by
  induction fs generalizing it with
  | nil =>
    constructor
    · intro h
      simp only [walkFields, Except.ok.injEq] at h
      exact ⟨[], List.Forall₂.nil, by simp [← h]⟩
    · rintro ⟨fds, hf, rfl⟩
      cases hf
      simp [walkFields]
  | cons f fs ih =>
    constructor
    · intro h
      unfold walkFields at h
      cases hb : buildField env cfg schema binder st f with
      | error e => simp [hb] at h
      | ok fd =>
        simp only [hb] at h
        obtain ⟨fds, hf, rfl⟩ := (ih _).mp h
        exact ⟨fd :: fds, List.Forall₂.cons hb hf, by simp⟩
    · rintro ⟨fds, hf, rfl⟩
      cases hf with
      | cons hb hrest =>
        unfold walkFields
        simp only [hb]
        exact (ih _).mpr ⟨_, hrest, by simp⟩

theorem walkFields_error_iff (env : Env) (cfg : Config) (schema : Schema) (binder : Binder)
    (st : Definition) (fs : List FieldDefinition) (it : Object) (e : Fault) :
    walkFields env cfg schema binder st it fs = .error e ↔
      ∃ pre f post fds, fs = pre ++ f :: post
        ∧ List.Forall₂ (fun f fd => buildField env cfg schema binder st f = .ok fd) pre fds
        ∧ buildField env cfg schema binder st f = .error e := by
  induction fs generalizing it with
  | nil =>
    constructor
    · intro h
      simp [walkFields] at h
    · rintro ⟨pre, f, post, fds, h, -, -⟩
      simp at h
  | cons g fs ih =>
    constructor
    · intro h
      unfold walkFields at h
      cases hb : buildField env cfg schema binder st g with
      | error e1 =>
        simp only [hb, Except.error.injEq] at h
        subst h
        exact ⟨[], g, fs, [], rfl, List.Forall₂.nil, hb⟩
      | ok fd =>
        simp only [hb] at h
        obtain ⟨pre, f, post, fds, rfl, hf, he⟩ := (ih _).mp h
        exact ⟨g :: pre, f, post, fd :: fds, rfl, List.Forall₂.cons hb hf, he⟩
    · rintro ⟨pre, f, post, fds, h, hf, he⟩
      unfold walkFields
      cases hf with
      | nil =>
        simp only [List.nil_append, List.cons.injEq] at h
        obtain ⟨rfl, rfl⟩ := h
        simp [he]
      | cons hb hrest =>
        simp only [List.cons_append, List.cons.injEq] at h
        obtain ⟨rfl, rfl⟩ := h
        simp only [hb]
        exact (ih _).mpr ⟨_, f, post, _, rfl, hrest, he⟩

theorem objectOf_ok_iff (env : Env) (cfg : Config) (schema : Schema) (binder : Binder)
    (t : Definition) (o : Object) :
    objectOf env cfg schema binder t = .ok o ↔
      ∃ fds, List.Forall₂ (fun f fd => buildField env cfg schema binder t f = .ok fd) t.Fields fds
        ∧ o = { Description := t.Description, Name := env.ToGo t.Name, Fields := fds,
                Implements := (schema.GetImplements t).map (fun d => env.ToGo d.Name) } := by
  unfold objectOf
  rw [walkFields_ok_iff, walkImplements_eq]
  simp

theorem visitType_error_iff (env : Env) (cfg : Config) (schema : Schema) (binder : Binder)
    (b : ModelBuild) (t : Definition) (e : Fault) :
    visitType env cfg schema binder b t = .error e ↔
      genObject cfg schema t = true ∧ objectOf env cfg schema binder t = .error e := by
  unfold visitType genObject
  cases hu : cfg.UserDefined t.Name <;> cases hk : t.Kind <;> cases hr : isRoot schema t <;>
    simp <;> cases ho : objectOf env cfg schema binder t <;> simp

theorem visitType_ok (env : Env) (cfg : Config) (schema : Schema) (binder : Binder)
    (b b1 : ModelBuild) (t : Definition)
    (h : visitType env cfg schema binder b t = .ok b1) :
    ∃ objs, List.Forall₂ (fun t o => objectOf env cfg schema binder t = .ok o)
        ([t].filter (genObject cfg schema)) objs
      ∧ b1 = { PackageName := b.PackageName
               Interfaces := b.Interfaces ++ ([t].filter (genInterface cfg)).map (interfaceOf env)
               Models := b.Models ++ objs
               Enums := b.Enums ++ ([t].filter (genEnum cfg)).map (enumOf env) } := by
  unfold visitType at h
  cases hu : cfg.UserDefined t.Name <;> cases hk : t.Kind <;> cases hr : isRoot schema t <;>
    simp only [hu, hk, hr] at h <;>
    first
    | (simp only [Bool.false_eq_true, if_false, if_true, Except.ok.injEq] at h
       subst h
       exact ⟨[], by simp [genObject, hu, hk, hr], by simp [genInterface, genEnum, hu, hk]⟩)
    | (cases ho : objectOf env cfg schema binder t with
       | error e => simp [ho] at h
       | ok o =>
         simp only [ho, Bool.false_eq_true, if_false, Except.ok.injEq] at h
         subst h
         refine ⟨[o], ?_, by simp [genInterface, genEnum, hu, hk]⟩
         simp [genObject, hu, hk, hr, ho])

theorem walkTypes_ok (env : Env) (cfg : Config) (schema : Schema) (binder : Binder)
    (ts : List Definition) (b b1 : ModelBuild)
    (h : walkTypes env cfg schema binder b ts = .ok b1) :
    ∃ objs, List.Forall₂ (fun t o => objectOf env cfg schema binder t = .ok o)
        (ts.filter (genObject cfg schema)) objs
      ∧ b1 = { PackageName := b.PackageName
               Interfaces := b.Interfaces ++ (ts.filter (genInterface cfg)).map (interfaceOf env)
               Models := b.Models ++ objs
               Enums := b.Enums ++ (ts.filter (genEnum cfg)).map (enumOf env) } := by
  induction ts generalizing b with
  | nil =>
    simp only [walkTypes, Except.ok.injEq] at h
    subst h
    exact ⟨[], by simp, by simp⟩
  | cons t ts ih =>
    unfold walkTypes at h
    cases hv : visitType env cfg schema binder b t with
    | error e => simp [hv] at h
    | ok b2 =>
      simp only [hv] at h
      obtain ⟨objs1, hf1, rfl⟩ := visitType_ok env cfg schema binder b b2 t hv
      obtain ⟨objs2, hf2, rfl⟩ := ih _ h
      refine ⟨objs1 ++ objs2, ?_, ?_⟩
      · have : (t :: ts).filter (genObject cfg schema)
            = [t].filter (genObject cfg schema) ++ ts.filter (genObject cfg schema) := by
          rw [← List.filter_append]; rfl
        rw [this]
        exact List.rel_append hf1 hf2
      · have e1 : (t :: ts).filter (genInterface cfg)
            = [t].filter (genInterface cfg) ++ ts.filter (genInterface cfg) := by
          rw [← List.filter_append]; rfl
        have e2 : (t :: ts).filter (genEnum cfg)
            = [t].filter (genEnum cfg) ++ ts.filter (genEnum cfg) := by
          rw [← List.filter_append]; rfl
        rw [e1, e2]
        simp [List.append_assoc]

theorem walkTypes_error_iff (env : Env) (cfg : Config) (schema : Schema) (binder : Binder)
    (ts : List Definition) (b : ModelBuild) (e : Fault) :
    walkTypes env cfg schema binder b ts = .error e ↔
      ∃ pre t post, ts = pre ++ t :: post
        ∧ (∃ b1, walkTypes env cfg schema binder b pre = .ok b1)
        ∧ genObject cfg schema t = true
        ∧ objectOf env cfg schema binder t = .error e := by
  induction ts generalizing b with
  | nil =>
    constructor
    · intro h
      simp [walkTypes] at h
    · rintro ⟨pre, t, post, h, -⟩
      simp at h
  | cons u ts ih =>
    constructor
    · intro h
      unfold walkTypes at h
      cases hv : visitType env cfg schema binder b u with
      | error e1 =>
        simp only [hv, Except.error.injEq] at h
        subst h
        obtain ⟨hg, ho⟩ := (visitType_error_iff env cfg schema binder b u e1).mp hv
        exact ⟨[], u, ts, rfl, ⟨b, by simp [walkTypes]⟩, hg, ho⟩
      | ok b2 =>
        simp only [hv] at h
        obtain ⟨pre, t, post, rfl, ⟨b3, hb3⟩, hg, ho⟩ := (ih _).mp h
        refine ⟨u :: pre, t, post, rfl, ⟨b3, ?_⟩, hg, ho⟩
        simp [walkTypes, hv, hb3]
    · rintro ⟨pre, t, post, h, ⟨b3, hb3⟩, hg, ho⟩
      unfold walkTypes
      cases pre with
      | nil =>
        simp only [List.nil_append, List.cons.injEq] at h
        obtain ⟨rfl, rfl⟩ := h
        have hv := (visitType_error_iff env cfg schema binder b u e).mpr ⟨hg, ho⟩
        simp [hv]
      | cons p pre =>
        simp only [List.cons_append, List.cons.injEq] at h
        obtain ⟨rfl, rfl⟩ := h
        unfold walkTypes at hb3
        cases hv : visitType env cfg schema binder b u with
        | error e1 => simp [hv] at hb3
        | ok b2 =>
          simp only [hv] at hb3 ⊢
          exact (ih _).mpr ⟨pre, t, post, rfl, ⟨b3, hb3⟩, hg, ho⟩

/-! ## Facts about `MutateConfig` -/

theorem finish_build (env : Env) (cfg : Config) (b0 : ModelBuild) :
    (finish env cfg b0).build = some (sortBuild b0)
      ∧ (finish env cfg b0).adds = registrations cfg (sortBuild b0) := by
  unfold finish
  split <;> simp

theorem MutateConfig_of_walk (env : Env) (cfg : Config) (schema : Schema) (binder : Binder)
    (hc : cfg.Check = none) (hs : cfg.LoadSchema = .ok schema)
    (hb : cfg.NewBinder schema = .ok binder) :
    MutateConfig env cfg =
      match walk env cfg schema binder with
      | .error (.err err) => stopped (.err err) (cfg.InjectBuiltins cfg.ModelsAtCall schema)
      | .error (.panic p) => stopped (.panic p) (cfg.InjectBuiltins cfg.ModelsAtCall schema)
      | .ok b0 => finish env cfg b0 := by
  unfold MutateConfig
  simp only [hc, hs, hb]

theorem build_some (env : Env) (cfg : Config) (b : ModelBuild)
    (h : (MutateConfig env cfg).build = some b) :
    ∃ schema binder b0, cfg.Check = none ∧ cfg.LoadSchema = .ok schema
      ∧ cfg.NewBinder schema = .ok binder ∧ walk env cfg schema binder = .ok b0
      ∧ b = sortBuild b0 ∧ MutateConfig env cfg = finish env cfg b0 := by
  unfold MutateConfig at h
  cases hc : cfg.Check with
  | some err => simp [hc, stopped] at h
  | none =>
    cases hs : cfg.LoadSchema with
    | error err => simp [hc, hs, stopped] at h
    | ok schema =>
      cases hb : cfg.NewBinder schema with
      | error err => simp [hc, hs, hb, stopped] at h
      | ok binder =>
        cases hw : walk env cfg schema binder with
        | error f =>
          cases f <;> simp [hc, hs, hb, hw, stopped] at h
        | ok b0 =>
          simp only [hc, hs, hb, hw] at h
          rw [(finish_build env cfg b0).1] at h
          refine ⟨schema, binder, b0, rfl, rfl, hb, hw, (Option.some.inj h).symm, ?_⟩
          rw [MutateConfig_of_walk env cfg schema binder hc hs hb, hw]

theorem build_of_ret_ok (env : Env) (cfg : Config)
    (h : (MutateConfig env cfg).ret = Ret.ok) :
    ∃ b, (MutateConfig env cfg).build = some b := by
  unfold MutateConfig at h ⊢
  cases hc : cfg.Check with
  | some err => simp [hc, stopped] at h
  | none =>
    cases hs : cfg.LoadSchema with
    | error err => simp [hc, hs, stopped] at h
    | ok schema =>
      cases hb : cfg.NewBinder schema with
      | error err => simp [hc, hs, hb, stopped] at h
      | ok binder =>
        cases hw : walk env cfg schema binder with
        | error f =>
          cases f <;> simp [hc, hs, hb, hw, stopped] at h
        | ok b0 =>
          refine ⟨sortBuild b0, ?_⟩
          simp only [hb, hw]
          exact (finish_build env cfg b0).1

/-- What a completed walk leaves in the sorted build, list by list. -/
theorem build_lists (env : Env) (cfg : Config) (b : ModelBuild)
    (h : (MutateConfig env cfg).build = some b) :
    ∃ schema binder objs, cfg.LoadSchema = .ok schema ∧ cfg.NewBinder schema = .ok binder
      ∧ List.Forall₂ (fun t o => objectOf env cfg schema binder t = .ok o)
          ((schema.Types.map Prod.snd).filter (genObject cfg schema)) objs
      ∧ b.Interfaces.Perm
          (((schema.Types.map Prod.snd).filter (genInterface cfg)).map (interfaceOf env))
      ∧ b.Models.Perm objs
      ∧ b.Enums.Perm (((schema.Types.map Prod.snd).filter (genEnum cfg)).map (enumOf env)) := by
  obtain ⟨schema, binder, b0, -, hs, hb, hw, rfl, -⟩ := build_some env cfg b h
  obtain ⟨objs, hf, rfl⟩ := walkTypes_ok env cfg schema binder _ _ _ hw
  refine ⟨schema, binder, objs, hs, hb, hf, ?_, ?_, ?_⟩
  · simpa [sortBuild] using perm_sortSlice _ _
  · simpa [sortBuild] using perm_sortSlice _ _
  · simpa [sortBuild] using perm_sortSlice _ _

theorem forall₂_of_mem_right {α β : Type} {R : α → β → Prop} {l₁ : List α} {l₂ : List β}
    (h : List.Forall₂ R l₁ l₂) {y : β} (hy : y ∈ l₂) : ∃ x ∈ l₁, R x y := by
  induction h with
  | nil => simp at hy
  | cons hr _ ih =>
    rcases List.mem_cons.mp hy with rfl | hy
    · exact ⟨_, List.mem_cons_self _ _, hr⟩
    · obtain ⟨x, hx, hxy⟩ := ih hy
      exact ⟨x, List.mem_cons_of_mem _ hx, hxy⟩

theorem forall₂_of_mem_left {α β : Type} {R : α → β → Prop} {l₁ : List α} {l₂ : List β}
    (h : List.Forall₂ R l₁ l₂) {x : α} (hx : x ∈ l₁) : ∃ y ∈ l₂, R x y := by
  induction h with
  | nil => simp at hx
  | cons hr _ ih =>
    rcases List.mem_cons.mp hx with rfl | hx
    · exact ⟨_, List.mem_cons_self _ _, hr⟩
    · obtain ⟨y, hy, hxy⟩ := ih hx
      exact ⟨y, List.mem_cons_of_mem _ hy, hxy⟩

theorem buildField_ok (env : Env) (cfg : Config) (schema : Schema) (binder : Binder)
    (st : Definition) (f : FieldDefinition) (fd : Field)
    (h : buildField env cfg schema binder st f = .ok fd) :
    ∃ typ fdef, baseType env cfg binder f = .ok typ
      ∧ schema.Types.lookup f.Typ.Name = some fdef
      ∧ fd = { Name := env.ToGo (fieldName cfg st f)
               Typ := binder.CopyModifiersFromAst f.Typ (decide (fdef.Kind ≠ .Interface)) typ
               Description := f.Description
               Tag := "json:\"" ++ f.Name ++ "\"" } := by
  unfold buildField at h
  cases hb : baseType env cfg binder f with
  | error e => simp [hb] at h
  | ok typ =>
    cases hl : schema.Types.lookup f.Typ.Name with
    | none => simp [hb, hl] at h
    | some fdef =>
      simp only [hb, hl, Except.ok.injEq] at h
      exact ⟨typ, fdef, rfl, rfl, h.symm⟩

/-! ## The claims -/

/-- C1: when `MutateConfig` succeeds, each of the three descriptor lists of the
build (Interfaces, Models, Enums) is sorted ascending by `Name` in the
case-sensitive order of strings: no descriptor has a `Name` less than the `Name`
of a descriptor before it.  The build is the one handed to the renderer. -/
theorem descriptor_lists_sorted_by_name (env : Env) (cfg : Config)
    (h : (MutateConfig env cfg).ret = Ret.ok) :
    ∃ b, (MutateConfig env cfg).build = some b
      ∧ b.Interfaces.Pairwise (fun x y => ¬ y.Name < x.Name)
      ∧ b.Models.Pairwise (fun x y => ¬ y.Name < x.Name)
      ∧ b.Enums.Pairwise (fun x y => ¬ y.Name < x.Name)
      ∧ ∀ o ∈ (MutateConfig env cfg).renders, o.Data = b := by
  obtain ⟨b, hb⟩ := build_of_ret_ok env cfg h
  obtain ⟨schema, binder, b0, -, -, -, -, rfl, hrun⟩ := build_some env cfg b hb
  refine ⟨sortBuild b0, hb, ?_, ?_, ?_, ?_⟩
  · exact pairwise_sortSlice (fun x : Interface => x.Name) _
  · exact pairwise_sortSlice (fun x : Object => x.Name) _
  · exact pairwise_sortSlice (fun x : Enum => x.Name) _
  · intro o ho
    rw [hrun] at ho
    unfold finish at ho
    split at ho
    · simp at ho
    · simp only [List.mem_singleton] at ho
      rw [ho]
      rfl

/-- The sample schema lists `Todo` before `Account` and `SearchResult` before
`Node`; the run succeeds and the lists come out in the order of the names. -/
theorem descriptor_lists_sorted_by_name_witness :
    (MutateConfig sampleEnv sampleConfig).ret = Ret.ok
      ∧ ((MutateConfig sampleEnv sampleConfig).build.map
          (fun b => (b.Interfaces.map (fun x => x.Name), b.Models.map (fun x => x.Name))))
        = some (["Node", "SearchResult"], ["Account", "Todo"])
      ∧ ∃ b, (MutateConfig sampleEnv sampleConfig).build = some b
        ∧ b.Interfaces.Pairwise (fun x y => ¬ y.Name < x.Name)
        ∧ b.Models.Pairwise (fun x y => ¬ y.Name < x.Name)
        ∧ b.Enums.Pairwise (fun x y => ¬ y.Name < x.Name)
        ∧ ∀ o ∈ (MutateConfig sampleEnv sampleConfig).renders, o.Data = b :=
  ⟨by decide, by decide, descriptor_lists_sorted_by_name sampleEnv sampleConfig (by decide)⟩

/-- C5: no schema type whose name is user-defined contributes a descriptor.
Every Interface, Object and Enum descriptor of the build is the descriptor built
from a type `t` of the schema with `UserDefined t.Name` false, whatever the kind
of `t`. -/
theorem user_defined_types_contribute_no_descriptor (env : Env) (cfg : Config)
    (b : ModelBuild) (h : (MutateConfig env cfg).build = some b) :
    ∃ schema binder, cfg.LoadSchema = .ok schema ∧ cfg.NewBinder schema = .ok binder
      ∧ (∀ i ∈ b.Interfaces, ∃ t ∈ schema.Types.map Prod.snd,
          cfg.UserDefined t.Name = false ∧ i = interfaceOf env t)
      ∧ (∀ o ∈ b.Models, ∃ t ∈ schema.Types.map Prod.snd,
          cfg.UserDefined t.Name = false ∧ objectOf env cfg schema binder t = .ok o)
      ∧ (∀ e ∈ b.Enums, ∃ t ∈ schema.Types.map Prod.snd,
          cfg.UserDefined t.Name = false ∧ e = enumOf env t) := by
  obtain ⟨schema, binder, objs, hs, hb, hf, hi, hm, he⟩ := build_lists env cfg b h
  refine ⟨schema, binder, hs, hb, ?_, ?_, ?_⟩
  · intro i hmem
    obtain ⟨t, ht, rfl⟩ := List.mem_map.mp (hi.mem_iff.mp hmem)
    obtain ⟨ht1, ht2⟩ := List.mem_filter.mp ht
    refine ⟨t, ht1, ?_, rfl⟩
    simp only [genInterface, Bool.and_eq_true, Bool.not_eq_true'] at ht2
    exact ht2.1
  · intro o hmem
    obtain ⟨t, ht, hto⟩ := forall₂_of_mem_right hf (hm.mem_iff.mp hmem)
    obtain ⟨ht1, ht2⟩ := List.mem_filter.mp ht
    refine ⟨t, ht1, ?_, hto⟩
    simp only [genObject, Bool.and_eq_true, Bool.not_eq_true'] at ht2
    exact ht2.1.1
  · intro e hmem
    obtain ⟨t, ht, rfl⟩ := List.mem_map.mp (he.mem_iff.mp hmem)
    obtain ⟨ht1, ht2⟩ := List.mem_filter.mp ht
    refine ⟨t, ht1, ?_, rfl⟩
    simp only [genEnum, Bool.and_eq_true, Bool.not_eq_true'] at ht2
    exact ht2.1

/-- In the sample run `User` is user-defined and is a type of the schema; the
build holds no descriptor for it. -/
theorem user_defined_types_contribute_no_descriptor_witness :
    sampleConfig.UserDefined defUser.Name = true
      ∧ (MutateConfig sampleEnv sampleConfig).build = some sampleBuild
      ∧ ∃ schema binder, sampleConfig.LoadSchema = .ok schema
        ∧ sampleConfig.NewBinder schema = .ok binder
        ∧ (∀ i ∈ sampleBuild.Interfaces, ∃ t ∈ schema.Types.map Prod.snd,
            sampleConfig.UserDefined t.Name = false ∧ i = interfaceOf sampleEnv t)
        ∧ (∀ o ∈ sampleBuild.Models, ∃ t ∈ schema.Types.map Prod.snd,
            sampleConfig.UserDefined t.Name = false
              ∧ objectOf sampleEnv sampleConfig schema binder t = .ok o)
        ∧ (∀ e ∈ sampleBuild.Enums, ∃ t ∈ schema.Types.map Prod.snd,
            sampleConfig.UserDefined t.Name = false ∧ e = enumOf sampleEnv t) :=
  ⟨by decide, by decide,
    user_defined_types_contribute_no_descriptor sampleEnv sampleConfig sampleBuild (by decide)⟩

/-- C9: every enum type of the schema that is not user-defined has its Enum
descriptor in the build: `Raw` is the schema name, `Name` its transform by the
naming policy, and `Values` holds one entry per schema enum value, in schema
order, with `Value` the raw literal and `Name` the transform of the literal. -/
theorem enum_descriptor_keeps_raw_values (env : Env) (cfg : Config) (schema : Schema)
    (b : ModelBuild) (t : Definition)
    (hs : cfg.LoadSchema = .ok schema)
    (h : (MutateConfig env cfg).build = some b)
    (ht : t ∈ schema.Types.map Prod.snd)
    (hu : cfg.UserDefined t.Name = false)
    (hk : t.Kind = DefinitionKind.Enum) :
    ∃ e ∈ b.Enums, e.Raw = t.Name ∧ e.Name = env.ToGo t.Name
      ∧ e.Description = t.Description
      ∧ e.Values.length = t.EnumValues.length
      ∧ e.Values.map (fun v => v.Value) = t.EnumValues.map (fun v => v.Name)
      ∧ e.Values.map (fun v => v.Name) = t.EnumValues.map (fun v => env.ToGo v.Name)
      ∧ e.Values.map (fun v => v.Description) = t.EnumValues.map (fun v => v.Description) := by
  obtain ⟨schema1, binder, objs, hs1, -, -, -, -, he⟩ := build_lists env cfg b h
  rw [hs] at hs1
  cases hs1
  refine ⟨enumOf env t, ?_, ?_⟩
  · refine he.mem_iff.mpr (List.mem_map.mpr ⟨t, List.mem_filter.mpr ⟨ht, ?_⟩, rfl⟩)
    simp [genEnum, hu, hk]
  · rw [enumOf_eq]
    simp [Function.comp_def]

/-- The enum `Status` with the values `ACTIVE` and `not_found`: the descriptor
keeps the two literals as they are written in the schema. -/
theorem enum_descriptor_keeps_raw_values_witness :
    (∃ e ∈ sampleBuild.Enums, e.Raw = "Status" ∧ e.Values.map (fun v => v.Value) = ["ACTIVE", "not_found"])
      ∧ ∃ e ∈ sampleBuild.Enums, e.Raw = defStatus.Name ∧ e.Name = sampleEnv.ToGo defStatus.Name
        ∧ e.Description = defStatus.Description
        ∧ e.Values.length = defStatus.EnumValues.length
        ∧ e.Values.map (fun v => v.Value) = defStatus.EnumValues.map (fun v => v.Name)
        ∧ e.Values.map (fun v => v.Name) = defStatus.EnumValues.map (fun v => sampleEnv.ToGo v.Name)
        ∧ e.Values.map (fun v => v.Description)
            = defStatus.EnumValues.map (fun v => v.Description) :=
  ⟨by decide,
    enum_descriptor_keeps_raw_values sampleEnv sampleConfig sampleSchema sampleBuild defStatus
      rfl (by decide) (by decide) (by decide) rfl⟩

/-- C10: every Object descriptor of the build is built from a type of the
schema, field by field and in order, and the `Tag` of each Field descriptor is
the string `json:"<name>"` made of the raw schema name of its field, for every
configuration (with or without a name override) and every naming policy. -/
theorem field_tag_is_raw_name (env : Env) (cfg : Config) (b : ModelBuild)
    (h : (MutateConfig env cfg).build = some b) :
    ∃ schema binder, cfg.LoadSchema = .ok schema ∧ cfg.NewBinder schema = .ok binder
      ∧ ∀ o ∈ b.Models, ∃ t ∈ schema.Types.map Prod.snd,
          objectOf env cfg schema binder t = .ok o
            ∧ List.Forall₂ (fun f fd => fd.Tag = "json:\"" ++ f.Name ++ "\"") t.Fields o.Fields := by
  obtain ⟨schema, binder, objs, hs, hb, hf, -, hm, -⟩ := build_lists env cfg b h
  refine ⟨schema, binder, hs, hb, ?_⟩
  intro o hmem
  obtain ⟨t, ht, hto⟩ := forall₂_of_mem_right hf (hm.mem_iff.mp hmem)
  refine ⟨t, (List.mem_filter.mp ht).1, hto, ?_⟩
  obtain ⟨fds, hfds, rfl⟩ := (objectOf_ok_iff env cfg schema binder t o).mp hto
  refine List.Forall₂.imp ?_ hfds
  intro f fd hfd
  obtain ⟨typ, fdef, -, -, rfl⟩ := buildField_ok env cfg schema binder t f fd hfd
  rfl

/-- The field `createdAt` of `Todo` has the configured name override `made`: its
descriptor is named by the override and tagged with the schema name. -/
theorem field_tag_is_raw_name_witness :
    (∃ o ∈ sampleBuild.Models, ∃ fd ∈ o.Fields, fd.Name = "Made" ∧ fd.Tag = "json:\"createdAt\"")
      ∧ ∃ schema binder, sampleConfig.LoadSchema = .ok schema
        ∧ sampleConfig.NewBinder schema = .ok binder
        ∧ ∀ o ∈ sampleBuild.Models, ∃ t ∈ schema.Types.map Prod.snd,
            objectOf sampleEnv sampleConfig schema binder t = .ok o
              ∧ List.Forall₂ (fun f fd => fd.Tag = "json:\"" ++ f.Name ++ "\"") t.Fields o.Fields :=
  ⟨by decide, field_tag_is_raw_name sampleEnv sampleConfig sampleBuild (by decide)⟩

/-- C2: the registry key of an Object descriptor is its transformed name, not
the raw schema name.  On the schema whose only generated type is the object type
`todo`, the run succeeds and makes one `Add` call, with key `Todo`; no call has
the schema name `todo` as its key. -/
theorem registration_key_is_transformed_name :
    (MutateConfig sampleEnv lowerConfig).ret = Ret.ok
      ∧ (MutateConfig sampleEnv lowerConfig).adds = [("Todo", "example.com/app/models.Todo")]
      ∧ ∀ kv ∈ (MutateConfig sampleEnv lowerConfig).adds, kv.1 ≠ defLowerTodo.Name := by
  decide

/-- C3: a field whose base type is a union is handed to `CopyModifiersFromAst`
with the pointer flag true, a field whose base type is an interface with the
flag false.  On the type `Hit` this holds for every `CopyModifiersFromAst`; with
the modelled one the nullable union field becomes a pointer and the nullable
interface field does not. -/
theorem union_field_gets_pointer_flag (copy : AstType → Bool → GoType → GoType) :
    ((MutateConfig sampleEnv (unionConfig copy)).build.map
        (fun b => b.Models.map (fun o => o.Fields.map (fun fd => fd.Typ))))
      = some [[copy (.Named "SearchResult" false) true (.Named sampleModel.Pkg "SearchResult"),
               copy (.Named "Node" false) false (.Named sampleModel.Pkg "Node")]]
    ∧ ((MutateConfig sampleEnv (unionConfig CopyModifiersFromAst)).build.map
        (fun b => b.Models.map (fun o => o.Fields.map (fun fd => fd.Typ))))
      = some [[.Pointer (.Named sampleModel.Pkg "SearchResult"), .Named sampleModel.Pkg "Node"]] := by
  constructor
  · rfl
  · decide

/-- C4: an `Add` call can have a user-defined name as its key.  With the object
types `Todo` (user-defined) and `todo` in the schema, the run succeeds and calls
`Add` with the key `Todo`, the transformed name of `todo`. -/
theorem registration_rewrites_user_defined_entry :
    twoTodoConfig.UserDefined "Todo" = true
      ∧ (MutateConfig sampleEnv twoTodoConfig).ret = Ret.ok
      ∧ ("Todo", "example.com/app/models.Todo") ∈ (MutateConfig sampleEnv twoTodoConfig).adds := by
  decide

/-- C6, as stated, fails: with the root type `Query` and the object type
`query` in the schema, the run succeeds and Models holds a descriptor whose
`Name` is the transformed name of the query root. -/
theorem root_name_among_models :
    rootSchema.Query = some defQuery
      ∧ (MutateConfig sampleEnv rootConfig).ret = Ret.ok
      ∧ ∃ b, (MutateConfig sampleEnv rootConfig).build = some b
        ∧ ∃ o ∈ b.Models, o.Name = sampleEnv.ToGo defQuery.Name := by
  refine ⟨rfl, by decide, rootBuild, by decide, ?_⟩
  exact ⟨_, List.mem_cons_self _ _, by decide⟩

/-- C6, amended: after a successful `MutateConfig`, no Object descriptor in
Models has a `Name` equal to the transformed name of a root type (query,
mutation or subscription), provided no type of the schema that is not
user-defined, has kind object or input object and is none of the three roots
has a name that the naming policy maps to the same identifier as the name of
that root. -/
theorem root_types_yield_no_object (env : Env) (cfg : Config) (schema : Schema)
    (r : Definition)
    (hs : cfg.LoadSchema = .ok schema)
    (hr : schema.Query = some r ∨ schema.Mutation = some r ∨ schema.Subscription = some r)
    (hinj : ∀ t ∈ schema.Types.map Prod.snd, cfg.UserDefined t.Name = false →
      (t.Kind = DefinitionKind.Object ∨ t.Kind = DefinitionKind.InputObject) →
      isRoot schema t = false → env.ToGo t.Name ≠ env.ToGo r.Name)
    (h : (MutateConfig env cfg).ret = Ret.ok) :
    ∃ b, (MutateConfig env cfg).build = some b ∧ ∀ o ∈ b.Models, o.Name ≠ env.ToGo r.Name := by
  have _ := hr
  obtain ⟨b, hb⟩ := build_of_ret_ok env cfg h
  refine ⟨b, hb, ?_⟩
  obtain ⟨schema1, binder, objs, hs1, -, hf, -, hm, -⟩ := build_lists env cfg b hb
  rw [hs] at hs1
  cases hs1
  intro o hmem
  obtain ⟨t, ht, hto⟩ := forall₂_of_mem_right hf (hm.mem_iff.mp hmem)
  obtain ⟨ht1, ht2⟩ := List.mem_filter.mp ht
  obtain ⟨fds, -, rfl⟩ := (objectOf_ok_iff env cfg schema binder t o).mp hto
  simp only [genObject, Bool.and_eq_true, Bool.not_eq_true', Bool.or_eq_true,
    decide_eq_true_eq] at ht2
  exact hinj t ht1 ht2.1.1 ht2.1.2 ht2.2

/-- In the sample schema with the enum type `query` added, a type other than
the root `Query` is named like it after the transform, but it is no object type:
the run succeeds and no Object descriptor is named `Query`. -/
theorem root_types_yield_no_object_witness :
    sampleEnv.ToGo defEnumQuery.Name = sampleEnv.ToGo defQuery.Name
      ∧ ∃ b, (MutateConfig sampleEnv enumQueryConfig).build = some b
        ∧ ∀ o ∈ b.Models, o.Name ≠ sampleEnv.ToGo defQuery.Name :=
  ⟨by decide,
    root_types_yield_no_object sampleEnv enumQueryConfig enumQuerySchema defQuery rfl
      (Or.inl rfl) (by decide) (by decide)⟩

theorem forall₂_of_forall_ok {α β : Type} {g : α → Except Fault β} {l : List α}
    (h : ∀ x ∈ l, ∃ y, g x = .ok y) : ∃ ys, List.Forall₂ (fun x y => g x = .ok y) l ys := by
  induction l with
  | nil => exact ⟨[], List.Forall₂.nil⟩
  | cons x xs ih =>
    obtain ⟨y, hy⟩ := h x (List.mem_cons_self _ _)
    obtain ⟨ys, hys⟩ := ih (fun z hz => h z (List.mem_cons_of_mem _ hz))
    exact ⟨y :: ys, List.Forall₂.cons hy hys⟩

theorem buildField_err_iff (env : Env) (cfg : Config) (schema : Schema) (binder : Binder)
    (st : Definition) (f : FieldDefinition) (e : GoError) :
    buildField env cfg schema binder st f = .error (.err e) ↔
      cfg.UserDefined f.Typ.Name = true ∧ ∃ m ms, (cfg.Models.get f.Typ.Name).Model = m :: ms
        ∧ binder.FindType (env.PkgAndType m).1 (env.PkgAndType m).2 = .error e := by
  unfold buildField baseType
  cases hu : cfg.UserDefined f.Typ.Name with
  | false =>
    cases hl : schema.Types.lookup f.Typ.Name <;> simp
  | true =>
    cases hm : (cfg.Models.get f.Typ.Name).Model with
    | nil => simp
    | cons m ms =>
      cases hf : binder.FindType (env.PkgAndType m).1 (env.PkgAndType m).2 with
      | error e1 => simp [hf]
      | ok typ =>
        cases hl : schema.Types.lookup f.Typ.Name <;> simp [hf]

/-- C7, as stated, fails: in the sample run whose binder cannot find the
location of `User`, `MutateConfig` returns the error of `FindType`, makes no
`Add` call and no `Render` call, but the type map it leaves is not the one of
the call: `cfg.InjectBuiltins(schema)` of line 76 has run before the walk and
has written the entry of `String`, which the caller had not. -/
theorem registry_differs_after_failure :
    (MutateConfig sampleEnv failConfig).ret
        = Ret.err { msg := "unable to find type example.com/app.User" }
      ∧ (MutateConfig sampleEnv failConfig).adds = []
      ∧ (MutateConfig sampleEnv failConfig).renders = []
      ∧ (MutateConfig sampleEnv failConfig).registry ≠ failConfig.ModelsAtCall
      ∧ failConfig.ModelsAtCall.lookup "String" = none
      ∧ (MutateConfig sampleEnv failConfig).registry.lookup "String"
          = some { Model := ["github.com/99designs/gqlgen/graphql.String"], Fields := [] } := by
  decide

/-- C7, amended: when the walk reaches a field whose base type is user-defined
and the binder's `FindType` fails on the first registered location of that type,
`MutateConfig` returns that error, makes no `Add` call and does not call the
renderer; the type map it leaves is the one that `cfg.InjectBuiltins(schema)`
made of the type map of the call at line 76, before the walk.  The walk reaches
the field when the types visited before its type are walked without a fault and
the fields before it are built without a fault. -/
theorem find_type_failure_aborts (env : Env) (cfg : Config) (schema : Schema)
    (binder : Binder) (pre post : List Definition) (t : Definition)
    (fpre fpost : List FieldDefinition) (f : FieldDefinition)
    (m : String) (ms : List String) (e : GoError)
    (hc : cfg.Check = none) (hs : cfg.LoadSchema = .ok schema)
    (hb : cfg.NewBinder schema = .ok binder)
    (hts : schema.Types.map Prod.snd = pre ++ t :: post)
    (hpre : ∃ b1, walkTypes env cfg schema binder
      { PackageName := cfg.Model.Package, Interfaces := [], Models := [], Enums := [] } pre
        = .ok b1)
    (hu : cfg.UserDefined t.Name = false)
    (hk : t.Kind = DefinitionKind.Object ∨ t.Kind = DefinitionKind.InputObject)
    (hr : isRoot schema t = false)
    (hfs : t.Fields = fpre ++ f :: fpost)
    (hfpre : ∀ g ∈ fpre, ∃ fd, buildField env cfg schema binder t g = .ok fd)
    (hfu : cfg.UserDefined f.Typ.Name = true)
    (hm : (cfg.Models.get f.Typ.Name).Model = m :: ms)
    (he : binder.FindType (env.PkgAndType m).1 (env.PkgAndType m).2 = .error e) :
    MutateConfig env cfg
      = { ret := Ret.err e, build := none, adds := [], renders := []
          registry := cfg.InjectBuiltins cfg.ModelsAtCall schema } := by
  have hfield : buildField env cfg schema binder t f = .error (.err e) :=
    (buildField_err_iff env cfg schema binder t f e).mpr ⟨hfu, m, ms, hm, he⟩
  obtain ⟨fds, hfds⟩ := forall₂_of_forall_ok hfpre
  have hobj : objectOf env cfg schema binder t = .error (.err e) := by
    unfold objectOf
    rw [walkFields_error_iff]
    exact ⟨fpre, f, fpost, fds, hfs, hfds, hfield⟩
  have hgen : genObject cfg schema t = true := by
    rcases hk with hk | hk <;> simp [genObject, hu, hk, hr]
  have hwalk : walk env cfg schema binder = .error (.err e) := by
    unfold walk
    rw [walkTypes_error_iff]
    exact ⟨pre, t, post, hts, hpre, hgen, hobj⟩
  rw [MutateConfig_of_walk env cfg schema binder hc hs hb, hwalk]
  rfl

/-- In the sample schema the walk visits `Status`, then `Todo`; the fields
`text` and `createdAt` are built, and `FindType` fails on the location of the
base type `User` of the field `owner`. -/
theorem find_type_failure_aborts_witness :
    MutateConfig sampleEnv failConfig =
      { ret := Ret.err { msg := "unable to find type example.com/app.User" }
        build := none, adds := [], renders := []
        registry := sampleModels ++ sampleBuiltins } :=
  find_type_failure_aborts sampleEnv failConfig sampleSchema (sampleBinder failKnown)
    [defStatus] [defSearchResult, defQuery, defUser, defNode, defAccount, defString] defTodo
    [{ Description := "", Name := "text", Typ := .Named "String" true },
     { Description := "creation time", Name := "createdAt", Typ := .Named "String" false }]
    [{ Description := "", Name := "tags", Typ := .ListOf (.Named "String" true) false }]
    { Description := "", Name := "owner", Typ := .Named "User" true }
    "example.com/app.User" [] { msg := "unable to find type example.com/app.User" }
    rfl rfl rfl (by decide) ⟨_, rfl⟩ (by decide) (by decide) (by decide) (by decide)
    (by
      intro g hg
      rcases List.mem_cons.mp hg with rfl | hg
      · exact ⟨_, rfl⟩
      rcases List.mem_cons.mp hg with rfl | hg
      · exact ⟨_, rfl⟩
      · cases hg)
    (by decide) (by decide) rfl

theorem buildField_no_panic (env : Env) (cfg : Config) (schema : Schema) (binder : Binder)
    (st : Definition) (f : FieldDefinition) (p : Panic)
    (hkey : schema.Types.lookup f.Typ.Name ≠ none)
    (hloc : cfg.UserDefined f.Typ.Name = true → (cfg.Models.get f.Typ.Name).Model ≠ []) :
    buildField env cfg schema binder st f ≠ .error (.panic p) := by
  unfold buildField baseType
  cases hl : schema.Types.lookup f.Typ.Name with
  | none => exact absurd hl hkey
  | some fdef =>
    cases hu : cfg.UserDefined f.Typ.Name with
    | false => simp
    | true =>
      cases hm : (cfg.Models.get f.Typ.Name).Model with
      | nil => exact absurd hm (hloc hu)
      | cons m ms =>
        cases hf : binder.FindType (env.PkgAndType m).1 (env.PkgAndType m).2 <;> simp [hf]

theorem walkFields_err_of_mem (env : Env) (cfg : Config) (schema : Schema) (binder : Binder)
    (st : Definition) (fs : List FieldDefinition) (it : Object)
    (hnp : ∀ f ∈ fs, ∀ p, buildField env cfg schema binder st f ≠ .error (.panic p))
    (hex : ∃ f ∈ fs, ∃ e, buildField env cfg schema binder st f = .error (.err e)) :
    ∃ e, walkFields env cfg schema binder st it fs = .error (.err e) := by
  induction fs generalizing it with
  | nil =>
    obtain ⟨f, hf, -⟩ := hex
    cases hf
  | cons g fs ih =>
    unfold walkFields
    cases hb : buildField env cfg schema binder st g with
    | error x =>
      cases x with
      | err e => exact ⟨e, rfl⟩
      | panic p => exact absurd hb (hnp g (List.mem_cons_self _ _) p)
    | ok fd =>
      obtain ⟨f, hf, e, he⟩ := hex
      rcases List.mem_cons.mp hf with rfl | hf
      · rw [hb] at he
        cases he
      · exact ih _ (fun f1 h1 => hnp f1 (List.mem_cons_of_mem _ h1)) ⟨f, hf, e, he⟩

theorem walkTypes_err_of_mem (env : Env) (cfg : Config) (schema : Schema) (binder : Binder)
    (ts : List Definition) (b : ModelBuild)
    (hnp : ∀ t ∈ ts, ∀ p, objectOf env cfg schema binder t ≠ .error (.panic p))
    (hex : ∃ t ∈ ts, genObject cfg schema t = true
      ∧ ∃ e, objectOf env cfg schema binder t = .error (.err e)) :
    ∃ e, walkTypes env cfg schema binder b ts = .error (.err e) := by
  induction ts generalizing b with
  | nil =>
    obtain ⟨t, ht, -⟩ := hex
    cases ht
  | cons u ts ih =>
    unfold walkTypes
    cases hv : visitType env cfg schema binder b u with
    | error x =>
      cases x with
      | err e => exact ⟨e, rfl⟩
      | panic p =>
        exact absurd ((visitType_error_iff env cfg schema binder b u _).mp hv).2
          (hnp u (List.mem_cons_self _ _) p)
    | ok b2 =>
      obtain ⟨t, ht, hg, e, he⟩ := hex
      rcases List.mem_cons.mp ht with rfl | ht
      · rw [(visitType_error_iff env cfg schema binder b t _).mpr ⟨hg, he⟩] at hv
        cases hv
      · exact ih _ (fun t1 h1 => hnp t1 (List.mem_cons_of_mem _ h1)) ⟨t, ht, hg, e, he⟩

/-- C8: given that `cfg.Check`, the schema loading and the binder construction
succeed, on a validated schema (the base type name of every field is a key of
`schema.Types`, and a user-defined base type has a registered location),
`MutateConfig` stops with a type-resolution error exactly when some schema type
that is not user-defined, has kind object or input object and is none of the
three root types has a field whose base type is user-defined and on whose
declared location `FindType` fails.  Fields of user-defined types and of root
types never cause it. -/
theorem walk_fails_iff_find_type_fails (env : Env) (cfg : Config) (schema : Schema)
    (binder : Binder)
    (hc : cfg.Check = none) (hs : cfg.LoadSchema = .ok schema)
    (hb : cfg.NewBinder schema = .ok binder)
    (hkey : ∀ t ∈ schema.Types.map Prod.snd, ∀ f ∈ t.Fields,
      schema.Types.lookup f.Typ.Name ≠ none)
    (hloc : ∀ t ∈ schema.Types.map Prod.snd, ∀ f ∈ t.Fields,
      cfg.UserDefined f.Typ.Name = true → (cfg.Models.get f.Typ.Name).Model ≠ []) :
    (∃ e, MutateConfig env cfg
        = { ret := Ret.err e, build := none, adds := [], renders := []
            registry := cfg.InjectBuiltins cfg.ModelsAtCall schema })
      ↔ ∃ t ∈ schema.Types.map Prod.snd, cfg.UserDefined t.Name = false
          ∧ (t.Kind = DefinitionKind.Object ∨ t.Kind = DefinitionKind.InputObject)
          ∧ isRoot schema t = false
          ∧ ∃ f ∈ t.Fields, cfg.UserDefined f.Typ.Name = true
            ∧ ∃ m ms e, (cfg.Models.get f.Typ.Name).Model = m :: ms
              ∧ binder.FindType (env.PkgAndType m).1 (env.PkgAndType m).2 = .error e := by
  rw [MutateConfig_of_walk env cfg schema binder hc hs hb]
  constructor
  · rintro ⟨e, he⟩
    have hw : walk env cfg schema binder = .error (.err e) := by
      cases hw : walk env cfg schema binder with
      | error x =>
        cases x with
        | err e1 =>
          rw [hw] at he
          simp only [stopped, Run.mk.injEq, Ret.err.injEq] at he
          rw [he.1]
        | panic p =>
          rw [hw] at he
          simp [stopped] at he
      | ok b0 =>
        rw [hw] at he
        have := (finish_build env cfg b0).1
        simp only at he
        rw [he] at this
        cases this
    unfold walk at hw
    obtain ⟨pre, t, post, hts, -, hg, ho⟩ := (walkTypes_error_iff _ _ _ _ _ _ _).mp hw
    unfold objectOf at ho
    obtain ⟨fpre, f, fpost, fds, hfs, -, hf⟩ := (walkFields_error_iff _ _ _ _ _ _ _ _).mp ho
    obtain ⟨hfu, m, ms, hm, hfind⟩ := (buildField_err_iff _ _ _ _ _ _ _).mp hf
    simp only [genObject, Bool.and_eq_true, Bool.not_eq_true', Bool.or_eq_true,
      decide_eq_true_eq] at hg
    refine ⟨t, by rw [hts]; simp, hg.1.1, hg.1.2, hg.2, f, by rw [hfs]; simp, hfu, m, ms, e,
      hm, hfind⟩
  · rintro ⟨t, ht, hu, hk, hr, f, hf, hfu, m, ms, e, hm, hfind⟩
    have hgen : genObject cfg schema t = true := by
      rcases hk with hk | hk <;> simp [genObject, hu, hk, hr]
    have hnp : ∀ t1 ∈ schema.Types.map Prod.snd, ∀ p,
        objectOf env cfg schema binder t1 ≠ .error (.panic p) := by
      intro t1 ht1 p hcon
      unfold objectOf at hcon
      obtain ⟨fpre, f1, fpost, fds, hfs, -, hf1⟩ := (walkFields_error_iff _ _ _ _ _ _ _ _).mp hcon
      have hmem : f1 ∈ t1.Fields := by rw [hfs]; simp
      exact buildField_no_panic env cfg schema binder t1 f1 p (hkey t1 ht1 f1 hmem)
        (hloc t1 ht1 f1 hmem) hf1
    have hobj : ∃ e1, objectOf env cfg schema binder t = .error (.err e1) := by
      unfold objectOf
      refine walkFields_err_of_mem env cfg schema binder t t.Fields _ ?_ ?_
      · intro f1 hf1 p
        exact buildField_no_panic env cfg schema binder t f1 p (hkey t ht f1 hf1)
          (hloc t ht f1 hf1)
      · exact ⟨f, hf, e, (buildField_err_iff _ _ _ _ _ _ _).mpr ⟨hfu, m, ms, hm, hfind⟩⟩
    obtain ⟨e1, he1⟩ := walkTypes_err_of_mem env cfg schema binder (schema.Types.map Prod.snd)
      { PackageName := cfg.Model.Package, Interfaces := [], Models := [], Enums := [] }
      hnp ⟨t, ht, hgen, hobj⟩
    refine ⟨e1, ?_⟩
    unfold walk
    rw [he1]
    rfl

/-- The sample schema is validated; with the binder that cannot find the
location of `User` both sides hold, the failing field being `owner` of `Todo`. -/
theorem walk_fails_iff_find_type_fails_witness :
    (∃ e, MutateConfig sampleEnv failConfig
        = { ret := Ret.err e, build := none, adds := [], renders := []
            registry := failConfig.InjectBuiltins failConfig.ModelsAtCall sampleSchema })
      ∧ ((∃ e, MutateConfig sampleEnv failConfig
            = { ret := Ret.err e, build := none, adds := [], renders := []
                registry := failConfig.InjectBuiltins failConfig.ModelsAtCall sampleSchema })
        ↔ ∃ t ∈ sampleSchema.Types.map Prod.snd, failConfig.UserDefined t.Name = false
            ∧ (t.Kind = DefinitionKind.Object ∨ t.Kind = DefinitionKind.InputObject)
            ∧ isRoot sampleSchema t = false
            ∧ ∃ f ∈ t.Fields, failConfig.UserDefined f.Typ.Name = true
              ∧ ∃ m ms e, (failConfig.Models.get f.Typ.Name).Model = m :: ms
                ∧ (sampleBinder failKnown).FindType (sampleEnv.PkgAndType m).1
                    (sampleEnv.PkgAndType m).2 = .error e) :=
  ⟨⟨{ msg := "unable to find type example.com/app.User" }, by decide⟩,
    walk_fails_iff_find_type_fails sampleEnv failConfig sampleSchema (sampleBinder failKnown)
      rfl rfl rfl (by decide) (by decide)⟩

/-- C11: when the walk succeeds, `templates.Render` is called exactly when the
Models list or the Enums list is not empty, and then once, with the build.  When
both are empty `MutateConfig` returns nil without calling it, however many
Interface descriptors there are, and every Interface descriptor still has its
`Add` call. -/
theorem renderer_called_iff_models_or_enums (env : Env) (cfg : Config) (b : ModelBuild)
    (h : (MutateConfig env cfg).build = some b) :
    ((MutateConfig env cfg).renders ≠ [] ↔ (b.Models ≠ [] ∨ b.Enums ≠ []))
      ∧ ((MutateConfig env cfg).renders ≠ [] →
          (MutateConfig env cfg).renders = [renderOptions cfg b])
      ∧ (b.Models = [] → b.Enums = [] →
          (MutateConfig env cfg).ret = Ret.ok ∧ (MutateConfig env cfg).renders = [])
      ∧ ∀ i ∈ b.Interfaces,
          (i.Name, cfg.Model.ImportPath ++ "." ++ i.Name) ∈ (MutateConfig env cfg).adds := by
  obtain ⟨schema, binder, b0, -, -, -, -, rfl, hrun⟩ := build_some env cfg b h
  rw [hrun]
  unfold finish
  by_cases hcond : (sortBuild b0).Models.length = 0 ∧ (sortBuild b0).Enums.length = 0
  · have hm : (sortBuild b0).Models = [] := List.length_eq_zero.mp hcond.1
    have he : (sortBuild b0).Enums = [] := List.length_eq_zero.mp hcond.2
    rw [if_pos hcond]
    refine ⟨by simp [hm, he], by simp, fun _ _ => ⟨rfl, rfl⟩, ?_⟩
    intro i hi
    simp only [registrations, List.mem_append, List.mem_map]
    exact Or.inr ⟨i, hi, rfl⟩
  · rw [if_neg hcond]
    refine ⟨?_, by simp, ?_, ?_⟩
    · simp only [ne_eq, List.cons_ne_self, not_false_eq_true, true_iff]
      by_contra hcon
      push_neg at hcon
      exact hcond ⟨by rw [hcon.1]; rfl, by rw [hcon.2]; rfl⟩
    · intro hm he
      exact absurd ⟨by rw [hm]; rfl, by rw [he]; rfl⟩ hcond
    · intro i hi
      simp only [registrations, List.mem_append, List.mem_map]
      exact Or.inr ⟨i, hi, rfl⟩

/-- A schema that yields the interface `Node` and neither object nor enum: the
run succeeds, the renderer is not called and `Node` is registered. -/
theorem renderer_called_iff_models_or_enums_witness :
    MutateConfig sampleEnv interfaceOnlyConfig
        = { ret := Ret.ok
            build := some { PackageName := "models", Models := [], Enums := []
                            Interfaces := [{ Description := "anything with an id", Name := "Node" }] }
            adds := [("Node", "example.com/app/models.Node")]
            renders := []
            registry := sampleBuiltins
              ++ [("Node", { Model := ["example.com/app/models.Node"], Fields := [] })] }
      ∧ (MutateConfig sampleEnv sampleConfig).renders = [renderOptions sampleConfig sampleBuild]
      ∧ ((MutateConfig sampleEnv sampleConfig).renders ≠ []
          ↔ (sampleBuild.Models ≠ [] ∨ sampleBuild.Enums ≠ [])) :=
  ⟨by decide, by decide,
    (renderer_called_iff_models_or_enums sampleEnv sampleConfig sampleBuild (by decide)).1⟩

/-- C13, as stated, fails: the field `createdAt` of `Todo` has the configured
name override `made`, and its Field descriptor is named `Made`, the transform of
the override, not the override. -/
theorem override_is_transformed :
    ((sampleConfig.Models.get defTodo.Name).field "createdAt").FieldName = "made"
      ∧ ((MutateConfig sampleEnv sampleConfig).build.map
          (fun b => b.Models.map (fun o => (o.Name, o.Fields.map (fun fd => (fd.Tag, fd.Name))))))
        = some [("Account", [("json:\"status\"", "Status")]),
                ("Todo", [("json:\"text\"", "Text"), ("json:\"createdAt\"", "Made"),
                          ("json:\"owner\"", "Owner"), ("json:\"tags\"", "Tags")])]
      ∧ "Made" ≠ "made" := by
  decide

/-- C13, amended: for every field of a generated Object, if the configuration
holds a non-empty name override for (type name, field name), the `Name` of the
Field descriptor is the naming-policy transform of that override; otherwise it
is the naming-policy transform of the raw schema field name. -/
theorem field_name_from_override_or_raw (env : Env) (cfg : Config) (b : ModelBuild)
    (h : (MutateConfig env cfg).build = some b) :
    ∃ schema binder, cfg.LoadSchema = .ok schema ∧ cfg.NewBinder schema = .ok binder
      ∧ ∀ o ∈ b.Models, ∃ t ∈ schema.Types.map Prod.snd,
          objectOf env cfg schema binder t = .ok o
            ∧ List.Forall₂ (fun f fd =>
                (((cfg.Models.get t.Name).field f.Name).FieldName ≠ "" →
                  fd.Name = env.ToGo ((cfg.Models.get t.Name).field f.Name).FieldName)
                ∧ (((cfg.Models.get t.Name).field f.Name).FieldName = "" →
                  fd.Name = env.ToGo f.Name)) t.Fields o.Fields := by
  obtain ⟨schema, binder, objs, hs, hb, hf, -, hm, -⟩ := build_lists env cfg b h
  refine ⟨schema, binder, hs, hb, ?_⟩
  intro o hmem
  obtain ⟨t, ht, hto⟩ := forall₂_of_mem_right hf (hm.mem_iff.mp hmem)
  refine ⟨t, (List.mem_filter.mp ht).1, hto, ?_⟩
  obtain ⟨fds, hfds, rfl⟩ := (objectOf_ok_iff env cfg schema binder t o).mp hto
  refine List.Forall₂.imp ?_ hfds
  intro f fd hfd
  obtain ⟨typ, fdef, -, -, rfl⟩ := buildField_ok env cfg schema binder t f fd hfd
  constructor
  · intro hne
    simp only [fieldName, if_pos hne]
  · intro heq
    have hn : ¬ ((cfg.Models.get t.Name).field f.Name).FieldName ≠ "" := fun hc => hc heq
    simp only [fieldName, if_neg hn]

/-- In the sample run the field `createdAt` has an override and the other
fields have none. -/
theorem field_name_from_override_or_raw_witness :
    ∃ schema binder, sampleConfig.LoadSchema = .ok schema
      ∧ sampleConfig.NewBinder schema = .ok binder
      ∧ ∀ o ∈ sampleBuild.Models, ∃ t ∈ schema.Types.map Prod.snd,
          objectOf sampleEnv sampleConfig schema binder t = .ok o
            ∧ List.Forall₂ (fun f fd =>
                (((sampleConfig.Models.get t.Name).field f.Name).FieldName ≠ "" →
                  fd.Name = sampleEnv.ToGo ((sampleConfig.Models.get t.Name).field f.Name).FieldName)
                ∧ (((sampleConfig.Models.get t.Name).field f.Name).FieldName = "" →
                  fd.Name = sampleEnv.ToGo f.Name)) t.Fields o.Fields :=
  field_name_from_override_or_raw sampleEnv sampleConfig sampleBuild (by decide)

/-- C14: a completed walk builds exactly one descriptor per surviving schema
type.  Interfaces is a permutation of the descriptors of the types that are not
user-defined and of kind interface or union, Models of those of the types that
are not user-defined, of kind object or input object and no root, Enums of those
of the enum types that are not user-defined; the lengths are the numbers of such
types (nothing is merged when two names transform alike), and a scalar type
yields nothing. -/
theorem one_descriptor_per_surviving_type (env : Env) (cfg : Config) (b : ModelBuild)
    (h : (MutateConfig env cfg).build = some b) :
    ∃ schema binder objs, cfg.LoadSchema = .ok schema ∧ cfg.NewBinder schema = .ok binder
      ∧ b.Interfaces.Perm (((schema.Types.map Prod.snd).filter (fun t =>
            !cfg.UserDefined t.Name
              && (decide (t.Kind = .Interface) || decide (t.Kind = .Union)))).map
          (fun t => { Description := t.Description, Name := env.ToGo t.Name }))
      ∧ List.Forall₂ (fun t o => objectOf env cfg schema binder t = .ok o)
          ((schema.Types.map Prod.snd).filter (fun t =>
            !cfg.UserDefined t.Name
              && (decide (t.Kind = .Object) || decide (t.Kind = .InputObject))
              && !isRoot schema t)) objs
      ∧ b.Models.Perm objs
      ∧ b.Enums.Perm (((schema.Types.map Prod.snd).filter (fun t =>
            !cfg.UserDefined t.Name && decide (t.Kind = .Enum))).map (enumOf env))
      ∧ b.Interfaces.length = (schema.Types.map Prod.snd).countP (genInterface cfg)
      ∧ b.Models.length = (schema.Types.map Prod.snd).countP (genObject cfg schema)
      ∧ b.Enums.length = (schema.Types.map Prod.snd).countP (genEnum cfg)
      ∧ ∀ t, t.Kind = DefinitionKind.Scalar →
          genInterface cfg t = false ∧ genObject cfg schema t = false ∧ genEnum cfg t = false := by
  obtain ⟨schema, binder, objs, hs, hb, hf, hi, hm, he⟩ := build_lists env cfg b h
  refine ⟨schema, binder, objs, hs, hb, hi, hf, hm, he, ?_, ?_, ?_, ?_⟩
  · rw [hi.length_eq, List.length_map, List.countP_eq_length_filter]
  · rw [hm.length_eq, ← hf.length_eq, List.countP_eq_length_filter]
  · rw [he.length_eq, List.length_map, List.countP_eq_length_filter]
  · intro t hk
    simp [genInterface, genObject, genEnum, hk]

/-- The sample schema has eight types: two user-defined, one root and five
surviving ones, which give two Interfaces, two Objects and one Enum. -/
theorem one_descriptor_per_surviving_type_witness :
    (sampleSchema.Types.length = 8 ∧ sampleBuild.Interfaces.length = 2
        ∧ sampleBuild.Models.length = 2 ∧ sampleBuild.Enums.length = 1)
      ∧ ∃ schema binder objs, sampleConfig.LoadSchema = .ok schema
        ∧ sampleConfig.NewBinder schema = .ok binder
        ∧ sampleBuild.Interfaces.Perm (((schema.Types.map Prod.snd).filter (fun t =>
              !sampleConfig.UserDefined t.Name
                && (decide (t.Kind = .Interface) || decide (t.Kind = .Union)))).map
            (fun t => { Description := t.Description, Name := sampleEnv.ToGo t.Name }))
        ∧ List.Forall₂ (fun t o => objectOf sampleEnv sampleConfig schema binder t = .ok o)
            ((schema.Types.map Prod.snd).filter (fun t =>
              !sampleConfig.UserDefined t.Name
                && (decide (t.Kind = .Object) || decide (t.Kind = .InputObject))
                && !isRoot schema t)) objs
        ∧ sampleBuild.Models.Perm objs
        ∧ sampleBuild.Enums.Perm (((schema.Types.map Prod.snd).filter (fun t =>
              !sampleConfig.UserDefined t.Name && decide (t.Kind = .Enum))).map
            (enumOf sampleEnv))
        ∧ sampleBuild.Interfaces.length
            = (schema.Types.map Prod.snd).countP (genInterface sampleConfig)
        ∧ sampleBuild.Models.length
            = (schema.Types.map Prod.snd).countP (genObject sampleConfig schema)
        ∧ sampleBuild.Enums.length = (schema.Types.map Prod.snd).countP (genEnum sampleConfig)
        ∧ ∀ t, t.Kind = DefinitionKind.Scalar →
            genInterface sampleConfig t = false ∧ genObject sampleConfig schema t = false
              ∧ genEnum sampleConfig t = false :=
  ⟨by decide, one_descriptor_per_surviving_type sampleEnv sampleConfig sampleBuild (by decide)⟩

/-- C17: every Object descriptor of the build is built from a schema type `t`,
and its `Implements` is the list of the transformed names of the definitions
that `schema.GetImplements t` returns, in that order and without any filtering
(user-defined ones included). -/
theorem implements_lists_every_implemented_type (env : Env) (cfg : Config) (b : ModelBuild)
    (h : (MutateConfig env cfg).build = some b) :
    ∃ schema binder, cfg.LoadSchema = .ok schema ∧ cfg.NewBinder schema = .ok binder
      ∧ ∀ o ∈ b.Models, ∃ t ∈ schema.Types.map Prod.snd,
          objectOf env cfg schema binder t = .ok o
            ∧ o.Implements = (schema.GetImplements t).map (fun d => env.ToGo d.Name) := by
  obtain ⟨schema, binder, objs, hs, hb, hf, -, hm, -⟩ := build_lists env cfg b h
  refine ⟨schema, binder, hs, hb, ?_⟩
  intro o hmem
  obtain ⟨t, ht, hto⟩ := forall₂_of_mem_right hf (hm.mem_iff.mp hmem)
  refine ⟨t, (List.mem_filter.mp ht).1, hto, ?_⟩
  obtain ⟨fds, -, rfl⟩ := (objectOf_ok_iff env cfg schema binder t o).mp hto
  rfl

/-- With the interface `Node` user-defined the build has no Interface
descriptor for it, and `Todo` still lists it in `Implements`. -/
theorem implements_lists_every_implemented_type_witness :
    nodeUserConfig.UserDefined defNode.Name = true
      ∧ ((MutateConfig sampleEnv nodeUserConfig).build.map
          (fun b => (b.Interfaces.map (fun i => i.Name),
                     b.Models.map (fun o => (o.Name, o.Implements)))))
        = some (["SearchResult"], [("Account", []), ("Todo", ["Node", "SearchResult"])])
      ∧ ∃ schema binder, nodeUserConfig.LoadSchema = .ok schema
        ∧ nodeUserConfig.NewBinder schema = .ok binder
        ∧ ∀ o ∈ ((MutateConfig sampleEnv nodeUserConfig).build.getD sampleBuild).Models,
            ∃ t ∈ schema.Types.map Prod.snd,
              objectOf sampleEnv nodeUserConfig schema binder t = .ok o
                ∧ o.Implements = (schema.GetImplements t).map (fun d => sampleEnv.ToGo d.Name) :=
  ⟨by decide, by decide,
    implements_lists_every_implemented_type sampleEnv nodeUserConfig _ (by decide)⟩

theorem baseType_ok (env : Env) (cfg : Config) (binder : Binder) (f : FieldDefinition)
    (typ : GoType) (h : baseType env cfg binder f = .ok typ) :
    (cfg.UserDefined f.Typ.Name = true →
        ∃ m ms, (cfg.Models.get f.Typ.Name).Model = m :: ms
          ∧ binder.FindType (env.PkgAndType m).1 (env.PkgAndType m).2 = .ok typ)
      ∧ (cfg.UserDefined f.Typ.Name = false →
        typ = GoType.Named cfg.Model.Pkg (env.ToGo f.Typ.Name)) := by
  unfold baseType at h
  cases hu : cfg.UserDefined f.Typ.Name with
  | false =>
    simp only [hu, Bool.false_eq_true, if_false, Except.ok.injEq] at h
    exact ⟨fun hc => absurd hc (by simp), fun _ => h.symm⟩
  | true =>
    simp only [hu, if_true] at h
    refine ⟨fun _ => ?_, fun hc => absurd hc (by simp)⟩
    cases hm : (cfg.Models.get f.Typ.Name).Model with
    | nil => simp [hm] at h
    | cons m ms =>
      simp only [hm] at h
      cases hf : binder.FindType (env.PkgAndType m).1 (env.PkgAndType m).2 with
      | error e => simp [hf] at h
      | ok t1 =>
        simp only [hf, Except.ok.injEq] at h
        exact ⟨m, ms, rfl, by rw [← h]; exact hf⟩

/-- C15: for every field of a generated Object, the `Typ` of the Field
descriptor is `CopyModifiersFromAst` applied to the schema type of the field,
the pointer flag and a base type.  When the base type name is user-defined, the
base type is what `FindType` returns for the package and type name that
`PkgAndType` splits from the first registered location of that name; otherwise
it is the named type of the model package whose name is the transform of the
base type name, whatever the schema, the registry and the binder hold. -/
theorem field_base_type_resolution (env : Env) (cfg : Config) (b : ModelBuild)
    (h : (MutateConfig env cfg).build = some b) :
    ∃ schema binder, cfg.LoadSchema = .ok schema ∧ cfg.NewBinder schema = .ok binder
      ∧ ∀ o ∈ b.Models, ∃ t ∈ schema.Types.map Prod.snd,
          objectOf env cfg schema binder t = .ok o
            ∧ List.Forall₂ (fun f fd => ∃ typ fdef,
                schema.Types.lookup f.Typ.Name = some fdef
                ∧ fd.Typ = binder.CopyModifiersFromAst f.Typ
                    (decide (fdef.Kind ≠ DefinitionKind.Interface)) typ
                ∧ (cfg.UserDefined f.Typ.Name = true →
                    ∃ m ms, (cfg.Models.get f.Typ.Name).Model = m :: ms
                      ∧ binder.FindType (env.PkgAndType m).1 (env.PkgAndType m).2 = .ok typ)
                ∧ (cfg.UserDefined f.Typ.Name = false →
                    typ = GoType.Named cfg.Model.Pkg (env.ToGo f.Typ.Name))) t.Fields o.Fields := by
  obtain ⟨schema, binder, objs, hs, hb, hf, -, hm, -⟩ := build_lists env cfg b h
  refine ⟨schema, binder, hs, hb, ?_⟩
  intro o hmem
  obtain ⟨t, ht, hto⟩ := forall₂_of_mem_right hf (hm.mem_iff.mp hmem)
  refine ⟨t, (List.mem_filter.mp ht).1, hto, ?_⟩
  obtain ⟨fds, hfds, rfl⟩ := (objectOf_ok_iff env cfg schema binder t o).mp hto
  refine List.Forall₂.imp ?_ hfds
  intro f fd hfd
  obtain ⟨typ, fdef, hbase, hl, rfl⟩ := buildField_ok env cfg schema binder t f fd hfd
  obtain ⟨h1, h2⟩ := baseType_ok env cfg binder f typ hbase
  exact ⟨typ, fdef, hl, rfl, h1, h2⟩

/-- In the sample run the field `owner` of `Todo` has the user-defined base type
`User`, found at `example.com/app.User`, and the field `status` of `Account` has
the base type `Status`, named in the model package. -/
theorem field_base_type_resolution_witness :
    (sampleBuild.Models.map (fun o => o.Fields.map (fun fd => fd.Typ)))
        = [[.Named sampleModel.Pkg "Status"],
           [.Basic "string", .Pointer (.Basic "string"),
            .Named { path := "example.com/app", name := "app" } "User", .Slice (.Basic "string")]]
      ∧ ∃ schema binder, sampleConfig.LoadSchema = .ok schema
        ∧ sampleConfig.NewBinder schema = .ok binder
        ∧ ∀ o ∈ sampleBuild.Models, ∃ t ∈ schema.Types.map Prod.snd,
            objectOf sampleEnv sampleConfig schema binder t = .ok o
              ∧ List.Forall₂ (fun f fd => ∃ typ fdef,
                  schema.Types.lookup f.Typ.Name = some fdef
                  ∧ fd.Typ = binder.CopyModifiersFromAst f.Typ
                      (decide (fdef.Kind ≠ DefinitionKind.Interface)) typ
                  ∧ (sampleConfig.UserDefined f.Typ.Name = true →
                      ∃ m ms, (sampleConfig.Models.get f.Typ.Name).Model = m :: ms
                        ∧ binder.FindType (sampleEnv.PkgAndType m).1 (sampleEnv.PkgAndType m).2
                            = .ok typ)
                  ∧ (sampleConfig.UserDefined f.Typ.Name = false →
                      typ = GoType.Named sampleConfig.Model.Pkg (sampleEnv.ToGo f.Typ.Name)))
                  t.Fields o.Fields :=
  ⟨by decide, field_base_type_resolution sampleEnv sampleConfig sampleBuild (by decide)⟩

theorem pointer_ne_self (t : GoType) : GoType.Pointer t ≠ t := by
  induction t with
  | Named pkg name => exact fun hc => GoType.noConfusion hc
  | Basic name => exact fun hc => GoType.noConfusion hc
  | Pointer e ih =>
    intro hc
    exact ih (GoType.Pointer.inj hc)
  | Slice e _ => exact fun hc => GoType.noConfusion hc

/-- C16: with the modelled `CopyModifiersFromAst`, in a generated Object a field
of schema type `[T!]` and a field of schema type `[T]!`, for a scalar base type
`T`, have different types in their Field descriptors: a slice of the base type
and a slice of pointers to the base type. -/
theorem list_modifiers_give_distinct_types (env : Env) (cfg : Config) (schema : Schema)
    (binder : Binder) (t : Definition) (o : Object) (f1 f2 : FieldDefinition)
    (T : String) (fdef : Definition)
    (hcopy : binder.CopyModifiersFromAst = CopyModifiersFromAst)
    (ho : objectOf env cfg schema binder t = .ok o)
    (hT : schema.Types.lookup T = some fdef)
    (hk : fdef.Kind = DefinitionKind.Scalar)
    (hf1 : f1 ∈ t.Fields) (hf2 : f2 ∈ t.Fields)
    (h1 : f1.Typ = AstType.ListOf (AstType.Named T true) false)
    (h2 : f2.Typ = AstType.ListOf (AstType.Named T false) true) :
    ∃ fd1 ∈ o.Fields, ∃ fd2 ∈ o.Fields,
      buildField env cfg schema binder t f1 = .ok fd1
        ∧ buildField env cfg schema binder t f2 = .ok fd2
        ∧ fd1.Typ ≠ fd2.Typ
        ∧ ∃ base, fd1.Typ = GoType.Slice base ∧ fd2.Typ = GoType.Slice (GoType.Pointer base) := by
  obtain ⟨fds, hfds, rfl⟩ := (objectOf_ok_iff env cfg schema binder t o).mp ho
  obtain ⟨fd1, hm1, hb1⟩ := forall₂_of_mem_left hfds hf1
  obtain ⟨fd2, hm2, hb2⟩ := forall₂_of_mem_left hfds hf2
  obtain ⟨typ1, fdef1, hbase1, hl1, rfl⟩ := buildField_ok env cfg schema binder t f1 fd1 hb1
  obtain ⟨typ2, fdef2, hbase2, hl2, rfl⟩ := buildField_ok env cfg schema binder t f2 fd2 hb2
  have hn1 : f1.Typ.Name = T := by rw [h1]; rfl
  have hn2 : f2.Typ.Name = T := by rw [h2]; rfl
  rw [hn1, hT] at hl1
  rw [hn2, hT] at hl2
  cases hl1
  cases hl2
  have htyp : typ1 = typ2 := by
    have e1 : baseType env cfg binder f1 = baseType env cfg binder f2 := by
      unfold baseType
      rw [hn1, hn2]
    rw [hbase1, hbase2] at e1
    exact Except.ok.inj e1
  subst htyp
  have hs1 : binder.CopyModifiersFromAst f1.Typ (decide (fdef.Kind ≠ DefinitionKind.Interface)) typ1
      = GoType.Slice typ1 := by
    rw [hcopy, h1, hk]
    simp [CopyModifiersFromAst]
  have hs2 : binder.CopyModifiersFromAst f2.Typ (decide (fdef.Kind ≠ DefinitionKind.Interface)) typ1
      = GoType.Slice (GoType.Pointer typ1) := by
    rw [hcopy, h2, hk]
    simp [CopyModifiersFromAst]
  refine ⟨_, hm1, _, hm2, hb1, hb2, ?_, typ1, hs1, hs2⟩
  simp only [hs1, hs2]
  intro hc
  exact pointer_ne_self typ1 (GoType.Slice.inj hc).symm

/-- The type `Tagged` has `tags: [String!]` and `notes: [String]!`: the first
becomes a slice of strings, the second a slice of pointers to strings. -/
theorem list_modifiers_give_distinct_types_witness :
    ((MutateConfig sampleEnv taggedConfig).build.map
        (fun b => b.Models.map (fun o => o.Fields.map (fun fd => (fd.Name, fd.Typ)))))
      = some [[("Tags", .Slice (.Basic "string")), ("Notes", .Slice (.Pointer (.Basic "string")))]]
    ∧ ∃ fd1 ∈ [({ Description := "", Name := "Tags", Typ := .Slice (.Basic "string"),
                   Tag := "json:\"tags\"" } : Field),
                { Description := "", Name := "Notes", Typ := .Slice (.Pointer (.Basic "string")),
                  Tag := "json:\"notes\"" }],
        ∃ fd2 ∈ [({ Description := "", Name := "Tags", Typ := .Slice (.Basic "string"),
                     Tag := "json:\"tags\"" } : Field),
                  { Description := "", Name := "Notes", Typ := .Slice (.Pointer (.Basic "string")),
                    Tag := "json:\"notes\"" }],
          buildField sampleEnv taggedConfig taggedSchema (sampleBinder sampleKnown) defTagged
              { Description := "", Name := "tags", Typ := .ListOf (.Named "String" true) false }
            = .ok fd1
          ∧ buildField sampleEnv taggedConfig taggedSchema (sampleBinder sampleKnown) defTagged
              { Description := "", Name := "notes", Typ := .ListOf (.Named "String" false) true }
            = .ok fd2
          ∧ fd1.Typ ≠ fd2.Typ
          ∧ ∃ base, fd1.Typ = GoType.Slice base ∧ fd2.Typ = GoType.Slice (GoType.Pointer base) :=
  ⟨by decide,
    list_modifiers_give_distinct_types sampleEnv taggedConfig taggedSchema
      (sampleBinder sampleKnown) defTagged
      { Description := "", Name := "Tagged", Implements := []
        Fields := [{ Description := "", Name := "Tags", Typ := .Slice (.Basic "string"),
                     Tag := "json:\"tags\"" },
                   { Description := "", Name := "Notes", Typ := .Slice (.Pointer (.Basic "string")),
                     Tag := "json:\"notes\"" }] }
      { Description := "", Name := "tags", Typ := .ListOf (.Named "String" true) false }
      { Description := "", Name := "notes", Typ := .ListOf (.Named "String" false) true }
      "String" defString rfl rfl rfl rfl (by decide) (by decide) rfl rfl⟩

theorem objectOf_no_panic (env : Env) (cfg : Config) (schema : Schema) (binder : Binder)
    (t : Definition) (p : Panic)
    (hkey : ∀ f ∈ t.Fields, schema.Types.lookup f.Typ.Name ≠ none)
    (hloc : ∀ f ∈ t.Fields, cfg.UserDefined f.Typ.Name = true →
      (cfg.Models.get f.Typ.Name).Model ≠ []) :
    objectOf env cfg schema binder t ≠ .error (.panic p) := by
  intro hcon
  unfold objectOf at hcon
  obtain ⟨fpre, f1, fpost, fds, hfs, -, hf1⟩ := (walkFields_error_iff _ _ _ _ _ _ _ _).mp hcon
  have hmem : f1 ∈ t.Fields := by rw [hfs]; simp
  exact buildField_no_panic env cfg schema binder t f1 p (hkey f1 hmem) (hloc f1 hmem) hf1

/-- C18: on a schema in which the base type name of every field of every
surviving object or input object type is a key of `schema.Types`, and with a
registered location for every user-defined base type of such a field, the walk
takes no failing lookup: no field of a surviving type is built with a panic
(neither the nil dereference at `fd.Kind` nor the index out of range at
`Model[0]`), and `MutateConfig` does not end by a panic. -/
theorem walk_takes_no_failing_lookup (env : Env) (cfg : Config) (schema : Schema)
    (hs : cfg.LoadSchema = .ok schema)
    (hkey : ∀ t ∈ schema.Types.map Prod.snd, genObject cfg schema t = true →
      ∀ f ∈ t.Fields, schema.Types.lookup f.Typ.Name ≠ none)
    (hloc : ∀ t ∈ schema.Types.map Prod.snd, genObject cfg schema t = true →
      ∀ f ∈ t.Fields, cfg.UserDefined f.Typ.Name = true →
        (cfg.Models.get f.Typ.Name).Model ≠ []) :
    (∀ binder, ∀ t ∈ schema.Types.map Prod.snd, genObject cfg schema t = true →
        ∀ f ∈ t.Fields, ∀ p, buildField env cfg schema binder t f ≠ .error (.panic p))
      ∧ ∀ p, (MutateConfig env cfg).ret ≠ Ret.panic p := by
  constructor
  · intro binder t ht hg f hf p
    exact buildField_no_panic env cfg schema binder t f p (hkey t ht hg f hf) (hloc t ht hg f hf)
  · intro p
    cases hc : cfg.Check with
    | some err =>
      unfold MutateConfig
      simp [hc, stopped]
    | none =>
      cases hb : cfg.NewBinder schema with
      | error err =>
        unfold MutateConfig
        simp [hc, hs, hb, stopped]
      | ok binder =>
        rw [MutateConfig_of_walk env cfg schema binder hc hs hb]
        cases hw : walk env cfg schema binder with
        | error x =>
          cases x with
          | err e => simp [stopped]
          | panic q =>
            exfalso
            unfold walk at hw
            obtain ⟨pre, t, post, hts, -, hg, ho⟩ := (walkTypes_error_iff _ _ _ _ _ _ _).mp hw
            have ht : t ∈ schema.Types.map Prod.snd := by rw [hts]; simp
            exact objectOf_no_panic env cfg schema binder t q (hkey t ht hg) (hloc t ht hg) ho
        | ok b0 =>
          simp only
          unfold finish
          split
          · simp
          · cases hr : env.Render (renderOptions cfg (sortBuild b0)) <;> simp [hr]

/-- The sample schema and configuration meet the two preconditions. -/
theorem walk_takes_no_failing_lookup_witness :
    (∀ binder, ∀ t ∈ sampleSchema.Types.map Prod.snd, genObject sampleConfig sampleSchema t = true →
        ∀ f ∈ t.Fields, ∀ p,
          buildField sampleEnv sampleConfig sampleSchema binder t f ≠ .error (.panic p))
      ∧ ∀ p, (MutateConfig sampleEnv sampleConfig).ret ≠ Ret.panic p :=
  walk_takes_no_failing_lookup sampleEnv sampleConfig sampleSchema rfl (by decide) (by decide)

/-- C19: every Object descriptor of the build is built from a schema type `t`:
`Fields` has the length of the field list of `t`, and the Field descriptor at
each position is the one built from the schema field at that position, with its
`Description` and the tag of its raw name.  Sorting permutes each of the three
lists of the walk and changes no descriptor, so the fields of an Object and the
values of an Enum keep their number and their order. -/
theorem fields_and_values_keep_schema_order (env : Env) (cfg : Config) (b : ModelBuild)
    (h : (MutateConfig env cfg).build = some b) :
    ∃ schema binder b0, cfg.LoadSchema = .ok schema ∧ cfg.NewBinder schema = .ok binder
      ∧ walk env cfg schema binder = .ok b0
      ∧ b.Interfaces.Perm b0.Interfaces ∧ b.Models.Perm b0.Models ∧ b.Enums.Perm b0.Enums
      ∧ (∀ o ∈ b.Models, ∃ t ∈ schema.Types.map Prod.snd,
          objectOf env cfg schema binder t = .ok o
            ∧ o.Fields.length = t.Fields.length
            ∧ List.Forall₂ (fun f fd =>
                buildField env cfg schema binder t f = .ok fd
                  ∧ fd.Description = f.Description
                  ∧ fd.Tag = "json:\"" ++ f.Name ++ "\"") t.Fields o.Fields)
      ∧ ∀ e ∈ b.Enums, ∃ t ∈ schema.Types.map Prod.snd,
          e = enumOf env t
            ∧ e.Values.length = t.EnumValues.length
            ∧ e.Values.map (fun v => v.Value) = t.EnumValues.map (fun v => v.Name) := by
  obtain ⟨schema, binder, b0, -, hs, hb, hw, rfl, -⟩ := build_some env cfg b h
  obtain ⟨objs, hf, hb0⟩ := walkTypes_ok env cfg schema binder _ _ _ hw
  refine ⟨schema, binder, b0, hs, hb, hw, perm_sortSlice _ _, perm_sortSlice _ _,
    perm_sortSlice _ _, ?_, ?_⟩
  · intro o hmem
    have hmem0 : o ∈ b0.Models := (perm_sortSlice _ _).mem_iff.mp hmem
    rw [hb0] at hmem0
    simp only [List.nil_append] at hmem0
    obtain ⟨t, ht, hto⟩ := forall₂_of_mem_right hf hmem0
    obtain ⟨fds, hfds, rfl⟩ := (objectOf_ok_iff env cfg schema binder t o).mp hto
    refine ⟨t, (List.mem_filter.mp ht).1, hto, hfds.length_eq.symm, ?_⟩
    refine List.Forall₂.imp ?_ hfds
    intro f fd hfd
    obtain ⟨typ, fdef, -, -, rfl⟩ := buildField_ok env cfg schema binder t f fd hfd
    exact ⟨hfd, rfl, rfl⟩
  · intro e hmem
    have hmem0 : e ∈ b0.Enums := (perm_sortSlice _ _).mem_iff.mp hmem
    rw [hb0] at hmem0
    simp only [List.nil_append] at hmem0
    obtain ⟨t, ht, rfl⟩ := List.mem_map.mp hmem0
    refine ⟨t, (List.mem_filter.mp ht).1, rfl, ?_, ?_⟩
    · rw [enumOf_eq]
      simp
    · rw [enumOf_eq]
      simp [Function.comp_def]

/-- In the sample run `Todo` keeps its four fields in the order `text`,
`createdAt`, `owner`, `tags`, although the Objects are reordered. -/
theorem fields_and_values_keep_schema_order_witness :
    (sampleBuild.Models.map (fun o => (o.Name, o.Fields.map (fun fd => fd.Tag))))
        = [("Account", ["json:\"status\""]),
           ("Todo", ["json:\"text\"", "json:\"createdAt\"", "json:\"owner\"", "json:\"tags\""])]
      ∧ ∃ schema binder b0, sampleConfig.LoadSchema = .ok schema
        ∧ sampleConfig.NewBinder schema = .ok binder
        ∧ walk sampleEnv sampleConfig schema binder = .ok b0
        ∧ sampleBuild.Interfaces.Perm b0.Interfaces ∧ sampleBuild.Models.Perm b0.Models
        ∧ sampleBuild.Enums.Perm b0.Enums
        ∧ (∀ o ∈ sampleBuild.Models, ∃ t ∈ schema.Types.map Prod.snd,
            objectOf sampleEnv sampleConfig schema binder t = .ok o
              ∧ o.Fields.length = t.Fields.length
              ∧ List.Forall₂ (fun f fd =>
                  buildField sampleEnv sampleConfig schema binder t f = .ok fd
                    ∧ fd.Description = f.Description
                    ∧ fd.Tag = "json:\"" ++ f.Name ++ "\"") t.Fields o.Fields)
        ∧ ∀ e ∈ sampleBuild.Enums, ∃ t ∈ schema.Types.map Prod.snd,
            e = enumOf sampleEnv t
              ∧ e.Values.length = t.EnumValues.length
              ∧ e.Values.map (fun v => v.Value) = t.EnumValues.map (fun v => v.Name) :=
  ⟨by decide, fields_and_values_keep_schema_order sampleEnv sampleConfig sampleBuild (by decide)⟩

theorem walkTypes_ok_of_forall (env : Env) (cfg : Config) (schema : Schema) (binder : Binder)
    (ts : List Definition) (b : ModelBuild)
    (h : ∀ t ∈ ts, genObject cfg schema t = true →
      ∃ o, objectOf env cfg schema binder t = .ok o) :
    ∃ b1, walkTypes env cfg schema binder b ts = .ok b1 := by
  cases hw : walkTypes env cfg schema binder b ts with
  | ok b1 => exact ⟨b1, rfl⟩
  | error e =>
    obtain ⟨pre, t, post, hts, -, hg, ho⟩ := (walkTypes_error_iff _ _ _ _ _ _ _).mp hw
    obtain ⟨o, hoo⟩ := h t (by rw [hts]; simp) hg
    rw [hoo] at ho
    cases ho

theorem forall₂_ok_eq_filterMap {α β : Type} {F : α → Except Fault β} {l : List α}
    {ys : List β} (h : List.Forall₂ (fun x y => F x = .ok y) l ys) :
    ys = l.filterMap (fun x => (F x).toOption) := by
  induction h with
  | nil => rfl
  | cons hxy _ ih =>
    rw [List.filterMap_cons]
    simp only [hxy, Except.toOption]
    exact congrArg _ ih

theorem sorted_perm_unique {α : Type} (key : α → String) {l₁ l₂ : List α}
    (hp : l₁.Perm l₂)
    (h₁ : l₁.Pairwise (fun a b => ¬ key b < key a))
    (h₂ : l₂.Pairwise (fun a b => ¬ key b < key a))
    (hn : (l₁.map key).Nodup) : l₁ = l₂ := by
  have strict : ∀ l : List α, l.Pairwise (fun a b => ¬ key b < key a) → (l.map key).Nodup →
      l.Pairwise (fun a b => key a < key b) := by
    intro l hl hnd
    have hne : l.Pairwise (fun a b => key a ≠ key b) := List.pairwise_map.mp hnd
    exact (hl.and hne).imp (fun hab => lt_of_le_of_ne (not_lt.mp hab.1) hab.2)
  haveI : IsAntisymm α (fun a b => key a < key b) :=
    ⟨fun a b hab hba => absurd hab (lt_asymm hba)⟩
  exact List.eq_of_perm_of_sorted hp (strict l₁ h₁ hn)
    (strict l₂ h₂ ((hp.map key).nodup_iff.mp hn))

theorem sortSlice_eq_of_perm {α : Type} (key : α → String) {l₁ l₂ : List α}
    (hp : l₁.Perm l₂)
    (hn : ((sortSlice (fun a b => strLess (key a) (key b)) l₁).map key).Nodup) :
    sortSlice (fun a b => strLess (key a) (key b)) l₁
      = sortSlice (fun a b => strLess (key a) (key b)) l₂ :=
  sorted_perm_unique key
    ((perm_sortSlice _ l₁).trans (hp.trans (perm_sortSlice _ l₂).symm))
    (pairwise_sortSlice key l₁) (pairwise_sortSlice key l₂) hn

theorem finish_congr (env : Env) (cfg : Config) (b1 b2 : ModelBuild)
    (h : sortBuild b1 = sortBuild b2) : finish env cfg b1 = finish env cfg b2 := by
  unfold finish
  rw [h]

/-- C12: the build does not depend on the order in which the schema types are
visited.  If a run that visits the types in the order of `schema.Types` holds a
build in which the names are pairwise distinct within each of the three lists,
then the walk over any permutation `ts` of the types succeeds as well, its
sorted build is the same build (same contents, same order in the three lists),
and what follows the walk (registration, hand-off, result) is the same run. -/
theorem build_independent_of_visit_order (env : Env) (cfg : Config) (schema : Schema)
    (binder : Binder) (b : ModelBuild) (ts : List Definition)
    (hs : cfg.LoadSchema = .ok schema) (hb : cfg.NewBinder schema = .ok binder)
    (h : (MutateConfig env cfg).build = some b)
    (hperm : ts.Perm (schema.Types.map Prod.snd))
    (hi : (b.Interfaces.map (fun x => x.Name)).Nodup)
    (hm : (b.Models.map (fun x => x.Name)).Nodup)
    (he : (b.Enums.map (fun x => x.Name)).Nodup) :
    ∃ b2, walkTypes env cfg schema binder
        { PackageName := cfg.Model.Package, Interfaces := [], Models := [], Enums := [] } ts
          = .ok b2
      ∧ sortBuild b2 = b
      ∧ finish env cfg b2 = MutateConfig env cfg := by
  obtain ⟨schema1, binder1, b0, -, hs1, hb1, hw, rfl, hrun⟩ := build_some env cfg b h
  rw [hs] at hs1
  cases hs1
  rw [hb] at hb1
  cases hb1
  obtain ⟨objs0, hf0, hb0⟩ := walkTypes_ok env cfg schema binder _ _ _ hw
  have hall : ∀ t ∈ ts, genObject cfg schema t = true →
      ∃ o, objectOf env cfg schema binder t = .ok o := by
    intro t ht hg
    obtain ⟨o, -, ho⟩ := forall₂_of_mem_left hf0
      (List.mem_filter.mpr ⟨hperm.mem_iff.mp ht, hg⟩)
    exact ⟨o, ho⟩
  obtain ⟨b2, hw2⟩ := walkTypes_ok_of_forall env cfg schema binder ts
    { PackageName := cfg.Model.Package, Interfaces := [], Models := [], Enums := [] } hall
  obtain ⟨objs2, hf2, hb2⟩ := walkTypes_ok env cfg schema binder _ _ _ hw2
  have hobjs : objs0.Perm objs2 := by
    rw [forall₂_ok_eq_filterMap hf0, forall₂_ok_eq_filterMap hf2]
    exact ((hperm.symm.filter _).filterMap _)
  have hsort : sortBuild b0 = sortBuild b2 := by
    have e1 : (sortBuild b0).Interfaces = (sortBuild b2).Interfaces := by
      refine sortSlice_eq_of_perm (fun x : Interface => x.Name) ?_ hi
      rw [hb0, hb2]
      exact List.Perm.append_left _ ((hperm.symm.filter _).map _)
    have e2 : (sortBuild b0).Models = (sortBuild b2).Models := by
      refine sortSlice_eq_of_perm (fun x : Object => x.Name) ?_ hm
      rw [hb0, hb2]
      exact List.Perm.append_left _ hobjs
    have e3 : (sortBuild b0).Enums = (sortBuild b2).Enums := by
      refine sortSlice_eq_of_perm (fun x : Enum => x.Name) ?_ he
      rw [hb0, hb2]
      exact List.Perm.append_left _ ((hperm.symm.filter _).map _)
    have e4 : (sortBuild b0).PackageName = (sortBuild b2).PackageName := by
      show b0.PackageName = b2.PackageName
      rw [hb0, hb2]
    cases hx : sortBuild b0
    cases hy : sortBuild b2
    rw [hx, hy] at e1 e2 e3 e4
    simp only at e1 e2 e3 e4
    rw [e1, e2, e3, e4]
  refine ⟨b2, hw2, hsort.symm, ?_⟩
  rw [hrun]
  exact finish_congr env cfg b2 b0 hsort.symm

/-- The sample types visited in the reverse order give the build of the sample
run. -/
theorem build_independent_of_visit_order_witness :
    ∃ b2, walkTypes sampleEnv sampleConfig sampleSchema (sampleBinder sampleKnown)
        { PackageName := sampleConfig.Model.Package, Interfaces := [], Models := [], Enums := [] }
        [defString, defAccount, defNode, defUser, defQuery, defSearchResult, defTodo, defStatus]
          = .ok b2
      ∧ sortBuild b2 = sampleBuild
      ∧ finish sampleEnv sampleConfig b2 = MutateConfig sampleEnv sampleConfig :=
  build_independent_of_visit_order sampleEnv sampleConfig sampleSchema (sampleBinder sampleKnown)
    sampleBuild
    [defString, defAccount, defNode, defUser, defQuery, defSearchResult, defTodo, defStatus]
    rfl rfl (by decide) (by decide) (by decide) (by decide) (by decide)

end Modelgen
